import Mathlib

/-!
Verification of the LMSR prediction-market core: a shallow embedding of the
fixed-point library, the LMSR calculator and the market instruction handlers,
with theorems checking the natural-language specification against the code.

Machine integers are modelled as `Nat` (u64 / u128) and `Int` (i64), with the
checked arithmetic of the source made explicit: a `checked_*` operation that
can fail becomes an `Option`, and fallible functions return
`Except PmError`.
-/

namespace PM

/-- Width constants for the machine integers used by the program. -/
def U64MOD : Nat := 2 ^ 64

def U128MOD : Nat := 2 ^ 128

def I64MAX : Int := 2 ^ 63 - 1

def I64MIN : Int := -(2 ^ 63)

/-- Error enum mirroring `PredictionMarketError` in
src/programs/prediction-market/src/errors.rs (only the variants the embedded
code can raise; the all-caps source names RESOLUTIONTOKEYTYPEERROR,
RESOLUTIONYESAMOUNTERROR, RESOLUTIONNOAMOUNTERROR are rendered in camel case). -/
inductive PmError where
  | ValueTooSmall
  | ValueTooLarge
  | InvalidAmount
  | CurveAlreadyCompleted
  | InvalidParameter
  | InvalidAuthority
  | InvalidMigrationAuthority
  | MarketNotCompleted
  | MarketIsCompleted
  | ResolutionTokenTypeError
  | ResolutionYesAmountError
  | ResolutionNoAmountError
  | InsufficientBalance
  | InsufficientLiquidity
  | MathOverflow
  | SlippageExceeded
  | ContractPaused
  | MarketNotEnded
  | TransactionExpired
  | ReentrancyDetected
  | MarketNotStarted
  | MarketEnded
  | DivisionByZero
  | InvalidMint
  | MarketBelowMinLiquidity
  | TradeSizeTooLarge
  | InvalidMarketOutcome
  | PoolTooImbalanced
  | MintAuthorityNotTransferred
  | ExcessiveWithdrawal
  | CircuitBreakerTriggered
  | WouldTriggerCircuitBreaker
  | MarketPaused
  | TokenSupplyMismatch
  | TokenProgramError
  deriving DecidableEq, Repr

/-- Rust `require!(cond, err)`. -/
def requireThat (cond : Bool) (e : PmError) : Except PmError Unit :=
  if cond then .ok () else .error e

/-- Rust `opt.ok_or(err)?`. -/
def okOr (o : Option α) (e : PmError) : Except PmError α :=
  match o with
  | some a => .ok a
  | none => .error e

/-- u64 `checked_add`. -/
def chkAdd64 (a b : Nat) : Option Nat :=
  if a + b < U64MOD then some (a + b) else none

/-- u64 `checked_sub` (also used for u128: subtraction only fails on underflow). -/
def chkSub (a b : Nat) : Option Nat :=
  if b ≤ a then some (a - b) else none

/-- u64 `checked_mul`. -/
def chkMul64 (a b : Nat) : Option Nat :=
  if a * b < U64MOD then some (a * b) else none

/-- u64 / u128 `checked_div`: fails only on a zero divisor. -/
def chkDiv (a b : Nat) : Option Nat :=
  if b = 0 then none else some (a / b)

/-- u128 `checked_add`. -/
def chkAdd128 (a b : Nat) : Option Nat :=
  if a + b < U128MOD then some (a + b) else none

/-- u128 `checked_mul`. -/
def chkMul128 (a b : Nat) : Option Nat :=
  if a * b < U128MOD then some (a * b) else none

/-- i64 `checked_add`. -/
def chkAddI64 (a b : Int) : Option Int :=
  if I64MIN ≤ a + b ∧ a + b ≤ I64MAX then some (a + b) else none

/-- i64 `checked_sub`. -/
def chkSubI64 (a b : Int) : Option Int :=
  if I64MIN ≤ a - b ∧ a - b ≤ I64MAX then some (a - b) else none

/-- Rust `x as i64` applied to a u64 value (two's-complement reinterpretation). -/
def u64AsI64 (n : Nat) : Int :=
  if n < 2 ^ 63 then (n : Int) else (n : Int) - U64MOD

/-!
## Fixed-point library

Embedding of src/programs/prediction-market/src/math/fixed_point.rs.
`FixedPoint` is a `u128` holding a Q64.64 value; here a `Nat` kept below
`2^128` by the checked operations.
-/

/-- Q64.64 fixed-point number (source type `FixedPoint = u128`). -/
abbrev FixedPoint := Nat

/-- Constant `ONE = 1 << 64`. -/
def fpONE : FixedPoint := 1 <<< 64

/-- Constant `TWO = 2 << 64`. -/
def fpTWO : FixedPoint := 2 <<< 64

/-- Constant `E ≈ e·2^64` (exact source literal). -/
def fpE : FixedPoint := 50143449209799256682

/-- Constant `LN_2 ≈ ln 2·2^64` (exact source literal). -/
def fpLN2 : FixedPoint := 12786308645202655660

/-- Constant `MAX_EXP_INPUT` (exact source literal, ≈ 43.668·2^64). -/
def MAX_EXP_INPUT : FixedPoint := 805306368000000000000

/-- Constant `MIN_LN_INPUT` (exact source literal 1844674407; the source
comment labels it `~0.0001 * 2^64`, but 0.0001·2^64 ≈ 1.8447e15 while the
literal is ≈ 1.8447e9 ≈ 1e-10·2^64). -/
def MIN_LN_INPUT : FixedPoint := 1844674407

/-- Modelled from the spec: `crate::constants::MASK_64`, the low-64-bit mask
used by fp_mul/fp_div (its defining module is not under src/; the value is
forced by the split into upper and lower 64 bits). -/
def MASK64 : Nat := (1 <<< 64) - 1

/-- fp_mul input guard `MAX_SAFE_INPUT = 1 << 127`. -/
def FP_MAX_SAFE_INPUT : Nat := 1 <<< 127

/-- Fixed-point multiplication `fp_mul`: computes `(a·b) >> 64` by four 64×64
partial products, failing with MathOverflow exactly as the source does. -/
def fpMul (a b : FixedPoint) : Except PmError FixedPoint := do
  if FP_MAX_SAFE_INPUT ≤ a ∧ FP_MAX_SAFE_INPUT ≤ b then
    throw .MathOverflow
  let aLo := a &&& MASK64
  let aHi := a >>> 64
  let bLo := b &&& MASK64
  let bHi := b >>> 64
  let ll ← okOr (chkMul128 aLo bLo) .MathOverflow
  let lh ← okOr (chkMul128 aLo bHi) .MathOverflow
  let hl ← okOr (chkMul128 aHi bLo) .MathOverflow
  let hh ← okOr (chkMul128 aHi bHi) .MathOverflow
  let resultFromLl := ll >>> 64
  let mid ← okOr (chkAdd128 lh hl) .MathOverflow
  let midLo := mid &&& MASK64
  let midHi := mid >>> 64
  let high ← okOr (chkAdd128 hh midHi) .MathOverflow
  -- checked_shl(64) succeeds (shift < 128) and truncates to 128 bits
  let shifted := (high <<< 64) % U128MOD
  let s1 ← okOr (chkAdd128 shifted midLo) .MathOverflow
  let result ← okOr (chkAdd128 s1 resultFromLl) .MathOverflow
  pure result

/-- The binary long-division helper `div_with_shifted_rem` inside fp_div:
computes `(rem·2^64 + extra) / divisor` bit by bit over the 64 bits of
`extra`, returning (quotient, remainder).  The u128 additions in the loop are
unchecked in the source and therefore wrap modulo `2^128`. -/
def divShiftedRem (rem extra divisor : Nat) : Nat × Nat :=
  (List.range 64).reverse.foldl
    (fun qr i =>
      let bit := (extra >>> i) &&& 1
      let r2 := (qr.2 * 2 + bit) % U128MOD
      if divisor ≤ r2 then ((qr.1 + (1 <<< i)) % U128MOD, r2 - divisor)
      else (qr.1, r2))
    (0, rem)

/-- Fixed-point division `fp_div`: computes `(a << 64) / b` by three 64-bit
segments. The source also computes several unused intermediate quotients; only
the `q_hi` overflow check among them is observable and is kept. -/
def fpDiv (a b : FixedPoint) : Except PmError FixedPoint := do
  let _ ← requireThat (0 < b) .DivisionByZero
  let aHi := a >>> 64
  let aLo := a &&& MASK64
  let qHi := aHi / b
  if (1 <<< 64) ≤ qHi then
    throw .MathOverflow
  let p2 := divShiftedRem 0 aHi b
  let p1 := divShiftedRem p2.2 aLo b
  let p0 := divShiftedRem p1.2 0 b
  if 0 < p2.1 then
    throw .MathOverflow
  let shifted := (p1.1 <<< 64) % U128MOD
  let result ← okOr (chkAdd128 shifted p0.1) .MathOverflow
  pure result

/-- Conversion `from_u64`. -/
def fromU64 (x : Nat) : FixedPoint := x <<< 64

/-- Conversion `to_u64` (truncating cast of the upper 64 bits). -/
def toU64 (x : FixedPoint) : Nat := (x >>> 64) % U64MOD

/-- The normalisation loops of fp_ln, fuelled: first `while normalized < ONE`
(shift left, decrement exponent), then `while normalized >= TWO` (shift right,
increment exponent).  For every input accepted by fp_ln the fuel of 260 is
never exhausted (the value is nonzero and below `2^128`). -/
def lnShiftUp : Nat → Nat → Int → Nat × Int
  | 0, n, e => (n, e)
  | fuel + 1, n, e =>
    if n < fpONE then lnShiftUp fuel ((n <<< 1) % U128MOD) (e - 1) else (n, e)

def lnShiftDown : Nat → Nat → Int → Nat × Int
  | 0, n, e => (n, e)
  | fuel + 1, n, e =>
    if fpTWO ≤ n then lnShiftDown fuel (n >>> 1) (e + 1) else (n, e)

/-- The Taylor loop of fp_ln over `i ∈ 2..=10`, carrying (result, term). -/
def lnTaylor (y : FixedPoint) : List Nat → FixedPoint → FixedPoint →
    Except PmError FixedPoint
  | [], result, _term => pure result
  | i :: rest, result, term => do
    let term2 ← fpMul term y
    let termDiv := term2 / i
    let result2 ←
      if i % 2 = 0 then okOr (chkSub result termDiv) .MathOverflow
      else okOr (chkAdd128 result termDiv) .MathOverflow
    lnTaylor y rest result2 term2

/-- Fixed-point natural logarithm `fp_ln`: guard against `MIN_LN_INPUT`,
normalise to `m·2^e` with `m ∈ [1, 2)`, 10 Taylor terms for `ln m`, then add
(or subtract) `|e|·ln 2`. -/
def fpLn (x : FixedPoint) : Except PmError FixedPoint := do
  let _ ← requireThat (MIN_LN_INPUT ≤ x) .InvalidParameter
  let up := lnShiftUp 260 x 0
  let nd := lnShiftDown 260 up.1 up.2
  let normalized := nd.1
  let exponent := nd.2
  let y ← okOr (chkSub normalized fpONE) .MathOverflow
  let result ← lnTaylor y [2, 3, 4, 5, 6, 7, 8, 9, 10] y y
  let exponentTerm ← okOr (chkMul128 fpLN2 exponent.natAbs) .MathOverflow
  if 0 ≤ exponent then
    okOr (chkAdd128 result exponentTerm) .MathOverflow
  else
    okOr (chkSub result exponentTerm) .MathOverflow

/-- The Taylor loop of fp_exp over `i ∈ 1..=15` carrying (result, term,
factorial); breaks early once a term divided by the factorial drops below
100. -/
def expTaylor (r : FixedPoint) : List Nat → FixedPoint → FixedPoint → Nat →
    Except PmError FixedPoint
  | [], result, _term, _fact => pure result
  | i :: rest, result, term, fact => do
    let fact2 ← okOr (chkMul128 fact i) .MathOverflow
    let term2 ← fpMul term r
    let termDiv := term2 / fact2
    let result2 ← okOr (chkAdd128 result termDiv) .MathOverflow
    if termDiv < 100 then pure result2
    else expTaylor r rest result2 term2 fact2

/-- Fixed-point exponential `fp_exp`: guard `x ≤ MAX_EXP_INPUT`, range-reduce
`x = n·ln2 + r`, 15 Taylor terms for `exp r`, then shift left by `n`.  In the
source `n` is a nonnegative i64 (quotient of unsigned values), so only the
left-shift branch is reachable; `checked_shl` truncates to 128 bits. -/
def fpExp (x : FixedPoint) : Except PmError FixedPoint := do
  let _ ← requireThat (x ≤ MAX_EXP_INPUT) .ValueTooLarge
  if x = 0 then
    pure fpONE
  else
    let n := x / fpLN2
    let r := x - n * fpLN2
    let result ← expTaylor r [1, 2, 3, 4, 5, 6, 7, 8, 9, 10, 11, 12, 13, 14, 15]
      fpONE fpONE 1
    if 128 ≤ n then throw .MathOverflow
    else pure ((result <<< n) % U128MOD)

/-- Numerically-stable `fp_log_sum_exp`: `max(a,b) + ln(1 + exp(-|a-b|))`,
with the correction dropped when `|a-b| ≥ 20`. -/
def fpLogSumExp (a b : FixedPoint) : Except PmError FixedPoint := do
  let maxVal := if b < a then a else b
  let diff ←
    if b < a then okOr (chkSub a b) .MathOverflow
    else okOr (chkSub b a) .MathOverflow
  if diff < fromU64 20 then
    let expDiff ← fpExp diff
    let expNegDiff ← fpDiv fpONE expDiff
    let onePlusExp ← okOr (chkAdd128 fpONE expNegDiff) .MathOverflow
    let lnTerm ← fpLn onePlusExp
    okOr (chkAdd128 maxVal lnTerm) .MathOverflow
  else
    pure maxVal

end PM

namespace PM

/-!
## LMSR calculator

Embedding of src/contract/programs/prediction-market/src/math/lmsr.rs and
src/contract/programs/prediction-market/src/math/safe_cast.rs.
-/

/-- `config::MAX_ITERATIONS` (binary-search gas cap). -/
def MAX_ITERATIONS : Nat := 50

/-- `config::CONVERGENCE_THRESHOLD` (source literal 100_000; the source
comment labels it 0.0001 USDC, but at 6 decimals 0.0001 USDC is 100 smallest
units while the literal is 100_000 = 0.1 USDC). -/
def CONVERGENCE_THRESHOLD : Nat := 100000

/-- `config::MAX_B_PARAM` (1M USDC in smallest units). -/
def MAX_B_PARAM : Nat := 1000000000000

/-- `config::MAX_POSITION` (1B USDC in smallest units, used as i64 and u64). -/
def MAX_POSITION : Nat := 1000000000000000

/-- Modelled from the spec: `crate::constants::MIN_COST_DIVISOR` (its defining
module is not under src/).  The lmsr source divides by it to form the 0.01
minimum reasonable price and the `amount / 100` static fallback the spec
warns about, so its value is 100. -/
def MIN_COST_DIVISOR : Nat := 100

/-- Modelled from the spec: `crate::constants::BASIS_POINTS_DIVISOR`
(its defining module is not under src/); all spec fee and ratio formulas
divide basis points by 10_000. -/
def BASIS_POINTS_DIVISOR : Nat := 10000

/-- Modelled from the spec: `crate::constants::MAX_POSITION_IMBALANCE_MULTIPLIER`
(its defining module is not under src/).  The spec fixes the hard cap at
`2·b` ("Hard cap (2b)"), so the multiplier is 2. -/
def MAX_POSITION_IMBALANCE_MULTIPLIER : Nat := 2

/-- Modelled from the spec: `crate::constants::FEE_PER_SHARE_PRECISION`
(its defining module is not under src/); the spec scales
`fee_per_share_cumulative` by 1e18. -/
def FEE_PER_SHARE_PRECISION : Nat := 10 ^ 18

/-- The log-sum part of `lmsr_cost`, split by the signs of the positions.
Returns `none` for the early `return Ok(0)` the source takes in the
double-negative branch when the scaled difference is at least 20, and
`some logSum` when the computation continues to the final multiplication. -/
def lmsrCostLogSum (qYes qNo : Int) (qYesOverB qNoOverB : FixedPoint) :
    Except PmError (Option FixedPoint) := do
  if 0 ≤ qYes ∧ 0 ≤ qNo then
    let ls ← fpLogSumExp qYesOverB qNoOverB
    pure (some ls)
  else if qYes < 0 ∧ qNo < 0 then
    -- double-negative branch: -max(|a|,|b|) + ln(1 + exp(-diff)), clamped at 0
    let mm := if qYes.natAbs < qNo.natAbs then (qYesOverB, qNoOverB)
              else (qNoOverB, qYesOverB)
    let minAbs := mm.1
    let maxAbs := mm.2
    let diff ← okOr (chkSub maxAbs minAbs) .MathOverflow
    if diff < fromU64 20 then
      let e ← fpExp diff
      let expNegDiff ← fpDiv fpONE e
      let onePlus ← okOr (chkAdd128 fpONE expNegDiff) .MathOverflow
      let lnTerm ← fpLn onePlus
      if maxAbs ≤ lnTerm then
        let v ← okOr (chkSub lnTerm maxAbs) .MathOverflow
        pure (some v)
      else
        pure (some 0)
    else
      pure none
  else
    -- mixed-sign branch: ln(exp(a) + exp(-b)) with a = |positive|, b = |negative|
    let posVal := if 0 ≤ qYes then qYesOverB else qNoOverB
    let negVal := if qYes < 0 then qYesOverB else qNoOverB
    if negVal ≤ posVal then
      let sum ← okOr (chkAdd128 posVal negVal) .MathOverflow
      let expNegSum ←
        if sum < fromU64 20 then do
          let e ← fpExp sum
          fpDiv fpONE e
        else pure 0
      let onePlusExp ← okOr (chkAdd128 fpONE expNegSum) .MathOverflow
      let lnTerm ← fpLn onePlusExp
      let v ← okOr (chkAdd128 posVal lnTerm) .MathOverflow
      pure (some v)
    else
      let diff ← okOr (chkSub negVal posVal) .MathOverflow
      let expNegDiff ←
        if diff < fromU64 20 then do
          let e ← fpExp diff
          fpDiv fpONE e
        else pure 0
      let onePlusExp ← okOr (chkAdd128 fpONE expNegDiff) .MathOverflow
      let lnTerm ← fpLn onePlusExp
      if negVal ≤ lnTerm then
        let v ← okOr (chkSub lnTerm negVal) .MathOverflow
        pure (some v)
      else
        pure (some 0)

/-- LMSR cost function `lmsr_cost`: `C(q) = b · ln(exp(q_yes/b) +
exp(q_no/b))`, saturated at 0 when the true cost is negative. -/
def lmsrCost (b : Nat) (qYes qNo : Int) : Except PmError Nat := do
  let _ ← requireThat (0 < b ∧ b ≤ MAX_B_PARAM) .InvalidParameter
  let _ ← requireThat (qYes.natAbs ≤ MAX_POSITION) .ValueTooLarge
  let _ ← requireThat (qNo.natAbs ≤ MAX_POSITION) .ValueTooLarge
  let bFp := fromU64 b
  let qYesFp := fromU64 qYes.natAbs
  let qNoFp := fromU64 qNo.natAbs
  -- both sign branches of the source compute the same absolute-value quotient
  let qYesOverB ← fpDiv qYesFp bFp
  let qNoOverB ← fpDiv qNoFp bFp
  let branch ← lmsrCostLogSum qYes qNo qYesOverB qNoOverB
  match branch with
  | none => pure 0
  | some logSum => do
    let costFp ← fpMul bFp logSum
    pure (toU64 costFp)

/-- LMSR marginal price `lmsr_marginal_price`:
`p_yes = exp(q_yes/b) / (exp(q_yes/b) + exp(q_no/b))`, with `exp(-x) = 1/exp x`
for negative positions. -/
def lmsrMarginalPrice (b : Nat) (qYes qNo : Int) : Except PmError FixedPoint := do
  let _ ← requireThat (0 < b ∧ b ≤ MAX_B_PARAM) .InvalidParameter
  let _ ← requireThat (qYes.natAbs ≤ MAX_POSITION) .ValueTooLarge
  let _ ← requireThat (qNo.natAbs ≤ MAX_POSITION) .ValueTooLarge
  let bFp := fromU64 b
  let qYesFp := fromU64 qYes.natAbs
  let qNoFp := fromU64 qNo.natAbs
  let qYesOverB ← fpDiv qYesFp bFp
  let qNoOverB ← fpDiv qNoFp bFp
  let expYes ←
    if 0 ≤ qYes then fpExp qYesOverB
    else do
      let expPos ← fpExp qYesOverB
      fpDiv fpONE expPos
  let expNo ←
    if 0 ≤ qNo then fpExp qNoOverB
    else do
      let expPos ← fpExp qNoOverB
      fpDiv fpONE expPos
  let denominator ← okOr (chkAdd128 expYes expNo) .MathOverflow
  fpDiv expYes denominator

/-- Buy cost `lmsr_buy_cost`: `C(after) - C(before)`, falling back to
`amount · marginal_price` (clamped to at least 1) when saturation makes the
computed costs reverse, and to `amount / MIN_COST_DIVISOR` when even the
marginal price fails; the result is clamped to at least 1. -/
def lmsrBuyCost (b : Nat) (qYesBefore qNoBefore : Int) (amount : Nat)
    (isYes : Bool) : Except PmError Nat := do
  let costBefore ← lmsrCost b qYesBefore qNoBefore
  let after ←
    if isYes then do
      let ny ← okOr (chkAddI64 qYesBefore (u64AsI64 amount)) .MathOverflow
      pure (ny, qNoBefore)
    else do
      let nn ← okOr (chkAddI64 qNoBefore (u64AsI64 amount)) .MathOverflow
      pure (qYesBefore, nn)
  let costAfter ← lmsrCost b after.1 after.2
  let costDiff :=
    if costBefore ≤ costAfter then costAfter - costBefore
    else
      match lmsrMarginalPrice b qYesBefore qNoBefore with
      | .ok marginalPrice =>
        let estimatedCost :=
          match fpMul (fromU64 amount) marginalPrice with
          | .ok fp => toU64 fp
          | .error _ => amount / 2
        max estimatedCost 1
      | .error _ =>
        -- checked_div by the nonzero MIN_COST_DIVISOR never takes unwrap_or(1)
        max (amount / MIN_COST_DIVISOR) 1
  pure (max costDiff 1)

/-- Sell payout `lmsr_sell_payout`: `C(before) - C(after)`, with the same
marginal-price fallback and the same clamp to at least 1. -/
def lmsrSellPayout (b : Nat) (qYesBefore qNoBefore : Int) (amount : Nat)
    (isYes : Bool) : Except PmError Nat := do
  let costBefore ← lmsrCost b qYesBefore qNoBefore
  let after ←
    if isYes then do
      let ny ← okOr (chkSubI64 qYesBefore (u64AsI64 amount)) .MathOverflow
      pure (ny, qNoBefore)
    else do
      let nn ← okOr (chkSubI64 qNoBefore (u64AsI64 amount)) .MathOverflow
      pure (qYesBefore, nn)
  let costAfter ← lmsrCost b after.1 after.2
  let payout :=
    if costAfter ≤ costBefore then costBefore - costAfter
    else
      match lmsrMarginalPrice b qYesBefore qNoBefore with
      | .ok marginalPrice =>
        let estimatedPayout :=
          match fpMul (fromU64 amount) marginalPrice with
          | .ok fp => toU64 fp
          | .error _ => amount / 2
        max estimatedPayout 1
      | .error _ =>
        max (amount / MIN_COST_DIVISOR) 1
  pure (max payout 1)

/-- The binary-search loop of `lmsr_tokens_for_usdc`, fuelled by the
iteration budget `MAX_ITERATIONS`; the u64 addition `low + high` is unchecked
in the source and therefore wraps modulo `2^64`. -/
def tokensSearchBuy (b : Nat) (qYes qNo : Int) (usdcAmount : Nat)
    (isYes : Bool) : Nat → Nat → Nat → Except PmError Nat
  | 0, low, _high => pure low
  | fuel + 1, low, high =>
    if low < high then do
      let mid := ((low + high) % U64MOD) / 2
      let cost ← lmsrBuyCost b qYes qNo mid isYes
      if usdcAmount < cost then
        tokensSearchBuy b qYes qNo usdcAmount isYes fuel low mid
      else if usdcAmount - cost < CONVERGENCE_THRESHOLD then
        pure mid
      else do
        let low2 ← okOr (chkAdd64 low 1) .MathOverflow
        tokensSearchBuy b qYes qNo usdcAmount isYes fuel low2 high
    else
      pure low

/-- Inverse calculation `lmsr_tokens_for_usdc`: estimate an upper bound from
the current marginal price (`usdc/p · 1.5`, clamped so the position stays
within MAX_POSITION; a conservative `usdc · 150` when the price is below
0.01), then binary-search the token amount.  Nat subtraction models the
source saturating_sub. -/
def lmsrTokensForUsdc (b : Nat) (qYes qNo : Int) (usdcAmount : Nat)
    (isYes : Bool) : Except PmError Nat := do
  let priceFp ← lmsrMarginalPrice b qYes qNo
  let minReasonablePrice ← fpDiv (fromU64 1) (fromU64 MIN_COST_DIVISOR)
  let q : Int := if isYes then qYes else qNo
  let maxSafeIncrement : Nat := MAX_POSITION - q.natAbs
  let estimatedUpperBound ←
    if minReasonablePrice ≤ priceFp then do
      let tokensEstimate ← fpDiv (fromU64 usdcAmount) priceFp
      let m ← fpMul tokensEstimate (fromU64 15)
      let withMargin := m / 10
      pure (min (toU64 withMargin) maxSafeIncrement)
    else do
      let upper ← okOr (chkMul64 usdcAmount 150) .MathOverflow
      pure (min upper maxSafeIncrement)
  tokensSearchBuy b qYes qNo usdcAmount isYes MAX_ITERATIONS 0 estimatedUpperBound

/-!
## safe_cast and the typed calculator facade
-/

/-- `U64_TO_I64_MAX`. -/
def U64_TO_I64_MAX : Nat := 2 ^ 63 - 1

/-- `MAX_SAFE_POSITION`. -/
def MAX_SAFE_POSITION : Nat := 1000000000000000

/-- `safe_u64_to_i64`. -/
def safeU64ToI64 (value : Nat) : Except PmError Int := do
  if U64_TO_I64_MAX < value then throw .MathOverflow
  if MAX_SAFE_POSITION < value then throw .ValueTooLarge
  pure (value : Int)

/-- `safe_add_to_position`. -/
def safeAddToPosition (current : Int) (delta : Nat) (isPositive : Bool) :
    Except PmError Int := do
  let deltaSigned ← safeU64ToI64 delta
  if isPositive then okOr (chkAddI64 current deltaSigned) .MathOverflow
  else okOr (chkSubI64 current deltaSigned) .MathOverflow

/-- `validate_position`. -/
def validatePosition (q : Int) : Except PmError Unit :=
  if MAX_SAFE_POSITION < q.natAbs then .error .ValueTooLarge else .ok ()

/-- `validate_position_pair` (the i64 saturating_add of the absolute values is
capped at i64::MAX). -/
def validatePositionPair (qYes qNo : Int) : Except PmError Unit := do
  let _ ← validatePosition qYes
  let _ ← validatePosition qNo
  let sum := min (qYes.natAbs + qNo.natAbs) U64_TO_I64_MAX
  if MAX_SAFE_POSITION * 2 < sum then .error .ValueTooLarge else .ok ()

/-- `LmsrCalculator::sell_yes_proceeds` / `sell_no_proceeds`: cost difference
through checked subtraction (no marginal-price fallback). -/
def calcSellProceeds (b : Nat) (qYes qNo : Int) (amount : Nat) (isYes : Bool) :
    Except PmError Nat := do
  let newQ ← safeAddToPosition (if isYes then qYes else qNo) amount false
  let _ ← validatePositionPair qYes qNo
  let costBefore ← lmsrCost b qYes qNo
  let after := if isYes then (newQ, qNo) else (qYes, newQ)
  let _ ← validatePositionPair after.1 after.2
  let costAfter ← lmsrCost b after.1 after.2
  okOr (chkSub costBefore costAfter) .MathOverflow

/-- `LmsrCalculator::new_positions_after_buy`. -/
def newPositionsAfterBuy (qYes qNo : Int) (amount : Nat) (isYes : Bool) :
    Except PmError (Int × Int) := do
  if isYes then
    let n ← safeAddToPosition qYes amount true
    let _ ← validatePositionPair n qNo
    pure (n, qNo)
  else
    let n ← safeAddToPosition qNo amount true
    let _ ← validatePositionPair qYes n
    pure (qYes, n)

end PM

namespace PM

/-!
## Market state, config and SPL-token primitives

Embedding of the `Market` record (src/programs/prediction-market/src/state/market.rs)
and `Config` (src/contract/programs/prediction-market/src/state/config.rs),
restricted to the fields the embedded instructions read or write.
-/

/-- Modelled from the spec: `crate::constants::USDC_DECIMALS` (its defining
module is not under src/); the spec fixes collateral decimals at 6. -/
def USDC_DECIMALS : Nat := 6

/-- The on-chain `Market` account (deprecated reserve fields other than the
two AMM supply counters are omitted; `display_name` is omitted). -/
structure Market where
  totalCollateralLocked : Nat
  totalYesMinted : Nat
  totalNoMinted : Nat
  poolCollateralReserve : Nat
  poolYesReserve : Nat
  poolNoReserve : Nat
  totalLpShares : Nat
  lmsrB : Nat
  lmsrQYes : Int
  lmsrQNo : Int
  tokenYesTotalSupply : Nat
  tokenNoTotalSupply : Nat
  isCompleted : Bool
  startSlot : Option Nat
  endingSlot : Option Nat
  resolutionYesRatio : Nat
  resolutionNoRatio : Nat
  winnerTokenType : Nat
  swapInProgress : Bool
  addLiquidityInProgress : Bool
  withdrawInProgress : Bool
  claimInProgress : Bool
  accumulatedLpFees : Nat
  feePerShareCumulative : Nat
  poolSettled : Bool
  initialYesProb : Nat
  insurancePoolContribution : Nat
  circuitBreakerActive : Bool
  circuitBreakerTriggeredAt : Int
  withdrawLast24h : Nat
  withdrawTrackingStart : Int
  initialYesReserve : Nat
  initialNoReserve : Nat
  hasFeeOverride : Bool
  platformBuyFeeOverride : Nat
  platformSellFeeOverride : Nat
  lpBuyFeeOverride : Nat
  lpSellFeeOverride : Nat
  marketPaused : Bool
  sentinelNoMinted : Bool
  deriving Repr, DecidableEq

/-- The global `Config` account (fields the embedded instructions use). -/
structure Config where
  platformBuyFee : Nat
  platformSellFee : Nat
  lpBuyFee : Nat
  lpSellFee : Nat
  isPaused : Bool
  usdcVaultMinBalance : Nat
  minUsdcLiquidity : Nat
  minTradingLiquidity : Nat
  lpInsurancePoolBalance : Nat
  lpInsuranceAllocationBps : Nat
  insuranceLossThresholdBps : Nat
  insuranceMaxCompensationBps : Nat
  insurancePoolEnabled : Bool
  deriving Repr, DecidableEq

/-- The per-(market, user) `LPPosition` account. -/
structure LpPosition where
  lpShares : Nat
  lastFeePerShare : Nat
  investedUsdc : Nat
  createdAt : Int
  lastAddAt : Int
  deriving Repr, DecidableEq

/-- SPL token transfer: debits the sender (failing on insufficient balance)
and credits the receiver, whose u64 balance must not overflow.  Returns
(new sender balance, new receiver balance). -/
def splTransfer (fromBal toBal amount : Nat) : Except PmError (Nat × Nat) := do
  let _ ← requireThat (amount ≤ fromBal) .TokenProgramError
  let newTo ← okOr (chkAdd64 toBal amount) .TokenProgramError
  pure (fromBal - amount, newTo)

/-- SPL mint_to: credits the receiver. -/
def splMintTo (toBal amount : Nat) : Except PmError Nat :=
  okOr (chkAdd64 toBal amount) .TokenProgramError

/-- SPL burn: debits the holder, failing on insufficient balance. -/
def splBurn (fromBal amount : Nat) : Except PmError Nat := do
  let _ ← requireThat (amount ≤ fromBal) .TokenProgramError
  pure (fromBal - amount)

/-- Token-account balances shared by the set-operation instructions:
the market collateral vault and the calling user's USDC / YES / NO accounts. -/
structure SetOpState where
  market : Market
  vaultUsdc : Nat
  userUsdc : Nat
  userYes : Nat
  userNo : Nat
  deriving Repr, DecidableEq

/-!
## mint_complete_set / redeem_complete_set

Embedding of MintCompleteSet::handler
(src/contract/programs/prediction-market/src/instructions/market/mint_complete_set.rs)
and RedeemCompleteSet::handler
(src/programs/prediction-market/src/instructions/market/redeem_complete_set.rs).
The PDA / mint-authority account constraints are environmental and assumed
satisfied; `usdcDecimals` is the collateral mint's decimals field.
-/

def mintCompleteSet (cfg : Config) (usdcDecimals : Nat) (st : SetOpState)
    (amount : Nat) : Except PmError SetOpState := do
  let _ ← requireThat (usdcDecimals = USDC_DECIMALS) .InvalidParameter
  let _ ← requireThat (!cfg.isPaused) .ContractPaused
  let _ ← requireThat (0 < amount) .InvalidAmount
  let _ ← requireThat (!st.market.isCompleted) .CurveAlreadyCompleted
  let tr ← splTransfer st.userUsdc st.vaultUsdc amount
  let userYes2 ← splMintTo st.userYes amount
  let userNo2 ← splMintTo st.userNo amount
  let m := st.market
  let locked2 ← okOr (chkAdd64 m.totalCollateralLocked amount) .MathOverflow
  let yesMinted2 ← okOr (chkAdd64 m.totalYesMinted amount) .MathOverflow
  let noMinted2 ← okOr (chkAdd64 m.totalNoMinted amount) .MathOverflow
  let yesSupply2 ← okOr (chkAdd64 m.tokenYesTotalSupply amount) .MathOverflow
  let noSupply2 ← okOr (chkAdd64 m.tokenNoTotalSupply amount) .MathOverflow
  -- vault snapshot event: expected balance is a chain of checked u64 adds
  let s1 ← okOr (chkAdd64 m.poolCollateralReserve locked2) .MathOverflow
  let _ ← okOr (chkAdd64 s1 m.accumulatedLpFees) .MathOverflow
  pure { market :=
          { m with
            totalCollateralLocked := locked2
            totalYesMinted := yesMinted2
            totalNoMinted := noMinted2
            tokenYesTotalSupply := yesSupply2
            tokenNoTotalSupply := noSupply2 }
         vaultUsdc := tr.2
         userUsdc := tr.1
         userYes := userYes2
         userNo := userNo2 }

def redeemCompleteSet (cfg : Config) (usdcDecimals : Nat) (st : SetOpState)
    (amount : Nat) : Except PmError SetOpState := do
  let _ ← requireThat (usdcDecimals = USDC_DECIMALS) .InvalidParameter
  let _ ← requireThat (0 < amount) .InvalidAmount
  let _ ← requireThat (!st.market.isCompleted) .CurveAlreadyCompleted
  let _ ← requireThat (!cfg.isPaused) .ContractPaused
  let _ ← requireThat (amount ≤ st.userYes) .InsufficientBalance
  let _ ← requireThat (amount ≤ st.userNo) .InsufficientBalance
  let _ ← requireThat (amount ≤ st.market.totalCollateralLocked) .InsufficientLiquidity
  let _ ← requireThat (amount ≤ st.vaultUsdc) .InsufficientLiquidity
  let userYes2 ← splBurn st.userYes amount
  let userNo2 ← splBurn st.userNo amount
  let tr ← splTransfer st.vaultUsdc st.userUsdc amount
  let m := st.market
  let locked2 ← okOr (chkSub m.totalCollateralLocked amount) .MathOverflow
  let yesMinted2 ← okOr (chkSub m.totalYesMinted amount) .MathOverflow
  let noMinted2 ← okOr (chkSub m.totalNoMinted amount) .MathOverflow
  let yesSupply2 ← okOr (chkSub m.tokenYesTotalSupply amount) .InsufficientBalance
  let noSupply2 ← okOr (chkSub m.tokenNoTotalSupply amount) .InsufficientBalance
  let s1 ← okOr (chkAdd64 m.poolCollateralReserve locked2) .MathOverflow
  let _ ← okOr (chkAdd64 s1 m.accumulatedLpFees) .MathOverflow
  pure { market :=
          { m with
            totalCollateralLocked := locked2
            totalYesMinted := yesMinted2
            totalNoMinted := noMinted2
            tokenYesTotalSupply := yesSupply2
            tokenNoTotalSupply := noSupply2 }
         vaultUsdc := tr.1
         userUsdc := tr.2
         userYes := userYes2
         userNo := userNo2 }

/-!
## claim_rewards

Embedding of ClaimRewards::handler
(src/contract/programs/prediction-market/src/instructions/market/claim_rewards.rs).
The handler checks the reentrancy lock, the collateral decimals and market
completion; it contains no pause check (the source deliberately allows claims
while globally paused).  Returns the post state and the USDC payout
transferred to the user.
-/

def claimRewards (cfg : Config) (usdcDecimals : Nat) (st : SetOpState) :
    Except PmError (SetOpState × Nat) := do
  let _ ← requireThat (!st.market.claimInProgress) .ReentrancyDetected
  let _ ← requireThat (usdcDecimals = USDC_DECIMALS) .InvalidParameter
  let _ ← requireThat st.market.isCompleted .MarketNotCompleted
  let yesBalance := st.userYes
  let noBalance := st.userNo
  let _ ← requireThat (0 < yesBalance ∨ 0 < noBalance) .InsufficientBalance
  let yp ← okOr (chkMul64 yesBalance st.market.resolutionYesRatio) .MathOverflow
  let yesPayout ← okOr (chkDiv yp BASIS_POINTS_DIVISOR) .MathOverflow
  let np ← okOr (chkMul64 noBalance st.market.resolutionNoRatio) .MathOverflow
  let noPayout ← okOr (chkDiv np BASIS_POINTS_DIVISOR) .MathOverflow
  let totalPayout ← okOr (chkAdd64 yesPayout noPayout) .MathOverflow
  let _ ←
    if 0 < totalPayout then do
      let _ ← requireThat (totalPayout ≤ st.vaultUsdc) .InsufficientLiquidity
      let remaining ← okOr (chkSub st.vaultUsdc totalPayout) .MathOverflow
      requireThat (cfg.usdcVaultMinBalance ≤ remaining) .InsufficientBalance
    else pure ()
  let m := st.market
  let collateralReleased := min totalPayout m.totalCollateralLocked
  let locked2 ← okOr (chkSub m.totalCollateralLocked collateralReleased)
    .InsufficientLiquidity
  let fromLiquidity ← okOr (chkSub totalPayout collateralReleased) .MathOverflow
  let pool2 ←
    if 0 < fromLiquidity then do
      let _ ← requireThat (fromLiquidity ≤ m.poolCollateralReserve)
        .InsufficientLiquidity
      okOr (chkSub m.poolCollateralReserve fromLiquidity) .MathOverflow
    else pure m.poolCollateralReserve
  let yesMintedDecrease := min yesBalance m.totalYesMinted
  let noMintedDecrease := min noBalance m.totalNoMinted
  let yesMinted2 ← okOr (chkSub m.totalYesMinted yesMintedDecrease) .MathOverflow
  let noMinted2 ← okOr (chkSub m.totalNoMinted noMintedDecrease) .MathOverflow
  let yesSupplyDecrease := min yesBalance m.tokenYesTotalSupply
  let noSupplyDecrease := min noBalance m.tokenNoTotalSupply
  let yesSupply2 ← okOr (chkSub m.tokenYesTotalSupply yesSupplyDecrease)
    .InsufficientBalance
  let noSupply2 ← okOr (chkSub m.tokenNoTotalSupply noSupplyDecrease)
    .InsufficientBalance
  let userYes2 ← if 0 < yesBalance then splBurn st.userYes yesBalance
    else pure st.userYes
  let userNo2 ← if 0 < noBalance then splBurn st.userNo noBalance
    else pure st.userNo
  let tr ← if 0 < totalPayout then splTransfer st.vaultUsdc st.userUsdc totalPayout
    else pure (st.vaultUsdc, st.userUsdc)
  pure ({ market :=
            { m with
              totalCollateralLocked := locked2
              poolCollateralReserve := pool2
              totalYesMinted := yesMinted2
              totalNoMinted := noMinted2
              tokenYesTotalSupply := yesSupply2
              tokenNoTotalSupply := noSupply2 }
          vaultUsdc := tr.1
          userUsdc := tr.2
          userYes := userYes2
          userNo := userNo2 }, totalPayout)

/-!
## resolution

Embedding of Resolution::handler
(src/programs/prediction-market/src/instructions/market/resolution.rs).
`authorityOk` stands for the signer matching the configured authority;
`globalYesBalance` / `globalNoBalance` are the global vault token-account
balances liquidated by the instruction.
-/

def resolutionHandler (authorityOk : Bool) (currentSlot : Nat)
    (globalYesBalance globalNoBalance : Nat) (m : Market)
    (yesAmount noAmount tokenType : Nat) (isCompletedArg : Bool) :
    Except PmError Market := do
  -- MarketOutcome::from_u8 validation
  let _ ← requireThat (tokenType ≤ 2) .InvalidMarketOutcome
  let _ ← requireThat authorityOk .InvalidMigrationAuthority
  let _ ← requireThat (!m.isCompleted) .MarketIsCompleted
  let _ ←
    match m.endingSlot with
    | some endingSlot => requireThat (endingSlot ≤ currentSlot) .MarketNotEnded
    | none => pure ()
  let _ ← requireThat (tokenType ≤ 2) .ResolutionTokenTypeError
  let _ ←
    if tokenType = 0 then do
      let _ ← requireThat (noAmount = BASIS_POINTS_DIVISOR) .ResolutionNoAmountError
      requireThat (yesAmount = 0) .ResolutionYesAmountError
    else if tokenType = 1 then do
      let _ ← requireThat (yesAmount = BASIS_POINTS_DIVISOR) .ResolutionYesAmountError
      requireThat (noAmount = 0) .ResolutionNoAmountError
    else do
      -- draw: the u64 sum is written unchecked in the source; under the
      -- standard Anchor release profile (overflow-checks = true) an
      -- overflowing add aborts the instruction, and since both operands are
      -- u64 and 10000 < 2^64, the comparison succeeds exactly when the
      -- mathematical sum is 10000
      requireThat (yesAmount + noAmount = BASIS_POINTS_DIVISOR)
        .ResolutionYesAmountError
  let m1 := { m with
    resolutionYesRatio := yesAmount
    resolutionNoRatio := noAmount
    winnerTokenType := tokenType
    isCompleted := if isCompletedArg then true else m.isCompleted }
  let _ ← requireThat (globalYesBalance ≤ m1.totalYesMinted) .TokenSupplyMismatch
  let expectedNoSupply := m1.totalNoMinted + (if m1.sentinelNoMinted then 1 else 0)
  let _ ← requireThat (globalNoBalance ≤ expectedNoSupply) .TokenSupplyMismatch
  let yesBurnable := globalYesBalance
  let noBurnable := min globalNoBalance expectedNoSupply
  let ypm ← okOr (chkMul64 yesBurnable yesAmount) .MathOverflow
  let yesPayout ← okOr (chkDiv ypm BASIS_POINTS_DIVISOR) .MathOverflow
  let noRedeemable := min globalNoBalance m1.totalNoMinted
  let npm ← okOr (chkMul64 noRedeemable noAmount) .MathOverflow
  let noPayout ← okOr (chkDiv npm BASIS_POINTS_DIVISOR) .MathOverflow
  let totalPdaPayout ← okOr (chkAdd64 yesPayout noPayout) .MathOverflow
  let locked2 ← okOr (chkSub m1.totalCollateralLocked totalPdaPayout)
    .InsufficientLiquidity
  let yesMinted2 ← okOr (chkSub m1.totalYesMinted yesBurnable) .MathOverflow
  let noMintedDecrease := min noBurnable m1.totalNoMinted
  let noMinted2 ← okOr (chkSub m1.totalNoMinted noMintedDecrease) .MathOverflow
  let yesSupply2 ← okOr (chkSub m1.tokenYesTotalSupply yesBurnable)
    .InsufficientBalance
  let noSupplyDecrease := min noBurnable m1.tokenNoTotalSupply
  let noSupply2 ← okOr (chkSub m1.tokenNoTotalSupply noSupplyDecrease)
    .InsufficientBalance
  let yesPoolReduction := min yesBurnable m1.poolYesReserve
  let noPoolReduction := min noBurnable m1.poolNoReserve
  let poolYes2 ← if 0 < yesPoolReduction then
      okOr (chkSub m1.poolYesReserve yesPoolReduction) .MathOverflow
    else pure m1.poolYesReserve
  let poolNo2 ← if 0 < noPoolReduction then
      okOr (chkSub m1.poolNoReserve noPoolReduction) .MathOverflow
    else pure m1.poolNoReserve
  let sentinel2 :=
    if m1.sentinelNoMinted ∧ 0 < noSupplyDecrease ∧ noMinted2 = 0 then false
    else m1.sentinelNoMinted
  pure { m1 with
    totalCollateralLocked := locked2
    totalYesMinted := yesMinted2
    totalNoMinted := noMinted2
    tokenYesTotalSupply := yesSupply2
    tokenNoTotalSupply := noSupply2
    poolYesReserve := poolYes2
    poolNoReserve := poolNo2
    sentinelNoMinted := sentinel2 }

end PM

namespace PM

/-- i64 `checked_mul`. -/
def chkMulI64 (a b : Int) : Option Int :=
  if I64MIN ≤ a * b ∧ a * b ≤ I64MAX then some (a * b) else none

/-- Truncating u128 → u64 cast (`as u64`). -/
def asU64 (n : Nat) : Nat := n % U64MOD

/-- Truncating cast to u16 (`as u16`). -/
def asU16 (n : Nat) : Nat := n % 65536

/-- Wrapping i128 → i64 cast (`as i64`). -/
def wrapI64 (v : Int) : Int := ((v + 2 ^ 63) % (U64MOD : Int)) - 2 ^ 63

/-- Reinterpreting i64 → u64 cast (`as u64` on a signed value). -/
def intAsU64 (v : Int) : Nat := (v % (U64MOD : Int)).toNat

/-- `utils::calculate_proportional_share`: `total · numerator / denominator`
in u128 with checked multiply and divide. -/
def calculateProportionalShare (total numerator denominator : Nat) :
    Except PmError Nat := do
  let p ← okOr (chkMul128 total numerator) .MathOverflow
  let q ← okOr (chkDiv p denominator) .MathOverflow
  pure (asU64 q)

/-- `LmsrCalculator::new_positions_after_sell`. -/
def newPositionsAfterSell (qYes qNo : Int) (amount : Nat) (isYes : Bool) :
    Except PmError (Int × Int) := do
  if isYes then
    let n ← safeAddToPosition qYes amount false
    let _ ← validatePositionPair n qNo
    pure (n, qNo)
  else
    let n ← safeAddToPosition qNo amount false
    let _ ← validatePositionPair qYes n
    pure (qYes, n)

/-!
## The swap instruction

Embedding of `Market::swap` (src/programs/prediction-market/src/state/market.rs)
and of the Swap::handler wrapper
(src/contract/programs/prediction-market/src/instructions/market/swap.rs).
The dynamic-depth multiplier constants and `MAX_SINGLE_TRADE_BPS` live in the
constants module that is not under src/, so `effectiveB` (the stage-adjusted
`b` that `calculate_effective_lmsr_b` would return) and `maxSingleTradeBps`
are taken as parameters.  During the trade the market's `lmsr_b` holds
`effectiveB`; the b-value restorer writes the original value back before the
function returns, so the post state keeps the original `lmsr_b`.
-/

/-- Accounts and ledgers touched by a swap. -/
structure SwapState where
  config : Config
  market : Market
  userUsdc : Nat
  vaultUsdc : Nat
  teamUsdc : Nat
  userYes : Nat
  userNo : Nat
  globalYes : Nat
  globalNo : Nat
  deriving Repr, DecidableEq

/-- Result triple returned by `Market::swap`. -/
structure SwapResult where
  usdcAmount : Nat
  tokenAmount : Nat
  feeUsdc : Nat
  deriving Repr, DecidableEq

/-- The v3.0 hard-cap check at the top of the buy path (market.rs lines
583-607): when the pre-trade imbalance `|q_yes - q_no|` reaches
`2·b`, buying the majority side is rejected with PoolTooImbalanced. -/
def hardCapCheck (b : Nat) (qYes qNo : Int) (tokenType : Nat) :
    Except PmError Unit := do
  let imbalance := (qYes - qNo).natAbs
  let hardCap ← okOr (chkMul64 b MAX_POSITION_IMBALANCE_MULTIPLIER) .MathOverflow
  if hardCap ≤ imbalance then
    let majoritySide := if qNo < qYes then 1 else 0
    requireThat (tokenType ≠ majoritySide) .PoolTooImbalanced
  else
    pure ()

/-- `Market::apply_buy`: tokens bought by the net collateral via the inverse
LMSR search, the position update, and the defense-in-depth imbalance bound
`|q_yes - q_no| ≤ MAX_POSITION_IMBALANCE_MULTIPLIER · b`.  Every internal
failure surfaces as the `ok_or(MathOverflow)` the swap body applies to the
returned Option. -/
def applyBuy (b : Nat) (qYes qNo : Int) (netAmount : Nat) (tokenType : Nat) :
    Except PmError (Nat × Int × Int) := do
  let tokens ←
    match lmsrTokensForUsdc b qYes qNo netAmount (tokenType = 1) with
    | .ok t => pure t
    | .error _ => throw .MathOverflow
  let pos ←
    match newPositionsAfterBuy qYes qNo tokens (tokenType = 1) with
    | .ok p => pure p
    | .error _ => throw .MathOverflow
  let maxImbalance ←
    match chkMulI64 (u64AsI64 b) (MAX_POSITION_IMBALANCE_MULTIPLIER : Int) with
    | some v => pure v
    | none => throw .MathOverflow
  let currentImbalance := (pos.1 - pos.2).natAbs
  if maxImbalance < (currentImbalance : Int) then throw .MathOverflow
  else pure (tokens, pos)

/-- `Market::apply_sell`: proceeds via `lmsr_sell_payout`, the position
update, and the same imbalance bound; failures surface as MathOverflow. -/
def applySell (b : Nat) (qYes qNo : Int) (amount : Nat) (tokenType : Nat) :
    Except PmError (Nat × Int × Int) := do
  let proceeds ←
    match lmsrSellPayout b qYes qNo amount (tokenType = 1) with
    | .ok v => pure v
    | .error _ => throw .MathOverflow
  let pos ←
    match newPositionsAfterSell qYes qNo amount (tokenType = 1) with
    | .ok p => pure p
    | .error _ => throw .MathOverflow
  let maxImbalance ←
    match chkMulI64 (u64AsI64 b) (MAX_POSITION_IMBALANCE_MULTIPLIER : Int) with
    | some v => pure v
    | none => throw .MathOverflow
  let currentImbalance := (pos.1 - pos.2).natAbs
  if maxImbalance < (currentImbalance : Int) then throw .MathOverflow
  else pure (proceeds, pos)

/-- The BUY branch of `Market::swap` (direction = 0): hard cap, fee split,
inverse-LMSR token amount, slippage check, insurance split of the platform
fee, transfers and pool-ledger updates. -/
def swapBuyBranch (effectiveB : Nat) (st : SwapState) (amount : Nat)
    (tokenType : Nat) (minimumReceiveAmount : Nat) :
    Except PmError (SwapState × SwapResult) := do
  let cfg := st.config
  let m := st.market
  let _ ← hardCapCheck effectiveB m.lmsrQYes m.lmsrQNo tokenType
  let platformBuyBps := if m.hasFeeOverride then m.platformBuyFeeOverride
    else cfg.platformBuyFee
  let lpBuyBps := if m.hasFeeOverride then m.lpBuyFeeOverride else cfg.lpBuyFee
  let pf ← okOr (chkMul64 amount platformBuyBps) .MathOverflow
  let platformFee ← okOr (chkDiv pf BASIS_POINTS_DIVISOR) .MathOverflow
  let lf ← okOr (chkMul64 amount lpBuyBps) .MathOverflow
  let lpFee ← okOr (chkDiv lf BASIS_POINTS_DIVISOR) .MathOverflow
  let totalFee ← okOr (chkAdd64 platformFee lpFee) .MathOverflow
  let amountAfterFee ← okOr (chkSub amount totalFee) .MathOverflow
  let buyRes ← applyBuy effectiveB m.lmsrQYes m.lmsrQNo amountAfterFee tokenType
  let tokensOut := buyRes.1
  let newQYes := buyRes.2.1
  let newQNo := buyRes.2.2
  let _ ← requireThat (minimumReceiveAmount ≤ tokensOut) .SlippageExceeded
  let insuranceAllocation ←
    if 0 < platformFee then do
      let p ← okOr (chkMul128 platformFee cfg.lpInsuranceAllocationBps) .MathOverflow
      let q ← okOr (chkDiv p BASIS_POINTS_DIVISOR) .MathOverflow
      pure (asU64 q)
    else pure 0
  let teamFee ← okOr (chkSub platformFee insuranceAllocation) .MathOverflow
  let v1 ← okOr (chkAdd64 amountAfterFee lpFee) .MathOverflow
  let usdcToVault ← okOr (chkAdd64 v1 insuranceAllocation) .MathOverflow
  let tr1 ← splTransfer st.userUsdc st.vaultUsdc usdcToVault
  let tr2 ←
    if 0 < teamFee then splTransfer tr1.1 st.teamUsdc teamFee
    else pure (tr1.1, st.teamUsdc)
  let insState ←
    if 0 < insuranceAllocation then do
      let g ← okOr (chkAdd64 cfg.lpInsurancePoolBalance insuranceAllocation)
        .MathOverflow
      let c ← okOr (chkAdd64 m.insurancePoolContribution insuranceAllocation)
        .MathOverflow
      pure (g, c)
    else pure (cfg.lpInsurancePoolBalance, m.insurancePoolContribution)
  let accLpFees2 ← okOr (chkAdd64 m.accumulatedLpFees lpFee) .MathOverflow
  let fps2 ←
    if 0 < m.totalLpShares ∧ 0 < lpFee then do
      let p ← okOr (chkMul128 lpFee FEE_PER_SHARE_PRECISION) .MathOverflow
      let inc ← okOr (chkDiv p m.totalLpShares) .MathOverflow
      okOr (chkAdd128 m.feePerShareCumulative inc) .MathOverflow
    else pure m.feePerShareCumulative
  let poolColl2 ← okOr (chkAdd64 m.poolCollateralReserve amountAfterFee)
    .MathOverflow
  if tokenType = 0 then do
    let _ ← requireThat (tokensOut ≤ m.poolNoReserve) .InsufficientLiquidity
    let poolNo2 ← okOr (chkSub m.poolNoReserve tokensOut) .MathOverflow
    let trTok ← splTransfer st.globalNo st.userNo tokensOut
    pure ({ st with
            config := { cfg with lpInsurancePoolBalance := insState.1 }
            market := { m with
              lmsrQYes := newQYes
              lmsrQNo := newQNo
              insurancePoolContribution := insState.2
              accumulatedLpFees := accLpFees2
              feePerShareCumulative := fps2
              poolCollateralReserve := poolColl2
              poolNoReserve := poolNo2 }
            userUsdc := tr2.1
            vaultUsdc := tr1.2
            teamUsdc := tr2.2
            globalNo := trTok.1
            userNo := trTok.2 },
          { usdcAmount := amountAfterFee, tokenAmount := tokensOut,
            feeUsdc := totalFee })
  else do
    let _ ← requireThat (tokensOut ≤ m.poolYesReserve) .InsufficientLiquidity
    let poolYes2 ← okOr (chkSub m.poolYesReserve tokensOut) .MathOverflow
    let trTok ← splTransfer st.globalYes st.userYes tokensOut
    pure ({ st with
            config := { cfg with lpInsurancePoolBalance := insState.1 }
            market := { m with
              lmsrQYes := newQYes
              lmsrQNo := newQNo
              insurancePoolContribution := insState.2
              accumulatedLpFees := accLpFees2
              feePerShareCumulative := fps2
              poolCollateralReserve := poolColl2
              poolYesReserve := poolYes2 }
            userUsdc := tr2.1
            vaultUsdc := tr1.2
            teamUsdc := tr2.2
            globalYes := trTok.1
            userYes := trTok.2 },
          { usdcAmount := amountAfterFee, tokenAmount := tokensOut,
            feeUsdc := totalFee })

/-- The SELL branch of `Market::swap` (direction = 1): LMSR gross proceeds,
fee split from the proceeds, slippage and vault minimum-balance checks,
transfers and pool-ledger updates. -/
def swapSellBranch (effectiveB : Nat) (st : SwapState) (amount : Nat)
    (tokenType : Nat) (minimumReceiveAmount : Nat) :
    Except PmError (SwapState × SwapResult) := do
  let cfg := st.config
  let m := st.market
  let sellRes ← applySell effectiveB m.lmsrQYes m.lmsrQNo amount tokenType
  let changeAmount := sellRes.1
  let newQYes := sellRes.2.1
  let newQNo := sellRes.2.2
  let platformSellBps := if m.hasFeeOverride then m.platformSellFeeOverride
    else cfg.platformSellFee
  let lpSellBps := if m.hasFeeOverride then m.lpSellFeeOverride else cfg.lpSellFee
  let pf ← okOr (chkMul64 changeAmount platformSellBps) .MathOverflow
  let platformFee ← okOr (chkDiv pf BASIS_POINTS_DIVISOR) .MathOverflow
  let lf ← okOr (chkMul64 changeAmount lpSellBps) .MathOverflow
  let lpFee ← okOr (chkDiv lf BASIS_POINTS_DIVISOR) .MathOverflow
  let totalFee ← okOr (chkAdd64 platformFee lpFee) .MathOverflow
  let amountAfterFee ← okOr (chkSub changeAmount totalFee) .MathOverflow
  let _ ← requireThat (minimumReceiveAmount ≤ amountAfterFee) .SlippageExceeded
  let _ ← requireThat (changeAmount ≤ m.poolCollateralReserve)
    .InsufficientLiquidity
  let insuranceAllocationCheck ←
    if 0 < platformFee then do
      let p ← okOr (chkMul128 platformFee cfg.lpInsuranceAllocationBps) .MathOverflow
      let q ← okOr (chkDiv p BASIS_POINTS_DIVISOR) .MathOverflow
      pure (asU64 q)
    else pure 0
  let teamFeeCheck ← okOr (chkSub platformFee insuranceAllocationCheck)
    .MathOverflow
  let projectedRemaining := wrapI64
    ((st.vaultUsdc : Int) - (amountAfterFee : Int) - (teamFeeCheck : Int))
  let _ ← requireThat (cfg.usdcVaultMinBalance ≤ intAsU64 projectedRemaining)
    .InsufficientBalance
  let sellRemainder : Nat → Nat → Nat → Nat →
      Except PmError (SwapState × SwapResult) :=
    fun poolYes2 poolNo2 fromTokBal toTokBal => do
      let poolColl2 ← okOr (chkSub m.poolCollateralReserve changeAmount)
        .MathOverflow
      let trOut ← splTransfer st.vaultUsdc st.userUsdc amountAfterFee
      let insuranceAllocation ←
        if 0 < platformFee then do
          let p ← okOr (chkMul128 platformFee cfg.lpInsuranceAllocationBps)
            .MathOverflow
          let q ← okOr (chkDiv p BASIS_POINTS_DIVISOR) .MathOverflow
          pure (asU64 q)
        else pure 0
      let teamFee ← okOr (chkSub platformFee insuranceAllocation) .MathOverflow
      let trTeam ←
        if 0 < teamFee then splTransfer trOut.1 st.teamUsdc teamFee
        else pure (trOut.1, st.teamUsdc)
      let insState ←
        if 0 < insuranceAllocation then do
          let g ← okOr (chkAdd64 cfg.lpInsurancePoolBalance insuranceAllocation)
            .MathOverflow
          let c ← okOr (chkAdd64 m.insurancePoolContribution insuranceAllocation)
            .MathOverflow
          pure (g, c)
        else pure (cfg.lpInsurancePoolBalance, m.insurancePoolContribution)
      let accLpFees2 ← okOr (chkAdd64 m.accumulatedLpFees lpFee) .MathOverflow
      let fps2 ←
        if 0 < m.totalLpShares ∧ 0 < lpFee then do
          let p ← okOr (chkMul128 lpFee FEE_PER_SHARE_PRECISION) .MathOverflow
          let inc ← okOr (chkDiv p m.totalLpShares) .MathOverflow
          okOr (chkAdd128 m.feePerShareCumulative inc) .MathOverflow
        else pure m.feePerShareCumulative
      let base : SwapState :=
        { st with
          config := { cfg with lpInsurancePoolBalance := insState.1 }
          market := { m with
            lmsrQYes := newQYes
            lmsrQNo := newQNo
            insurancePoolContribution := insState.2
            accumulatedLpFees := accLpFees2
            feePerShareCumulative := fps2
            poolCollateralReserve := poolColl2
            poolYesReserve := poolYes2
            poolNoReserve := poolNo2 }
          vaultUsdc := trTeam.1
          userUsdc := trOut.2
          teamUsdc := trTeam.2 }
      let final : SwapState :=
        if tokenType = 0 then { base with userNo := fromTokBal, globalNo := toTokBal }
        else { base with userYes := fromTokBal, globalYes := toTokBal }
      pure (final,
        { usdcAmount := amountAfterFee, tokenAmount := amount, feeUsdc := totalFee })
  if tokenType = 0 then do
    let poolNo2 ← okOr (chkAdd64 m.poolNoReserve amount) .MathOverflow
    let trTok ← splTransfer st.userNo st.globalNo amount
    sellRemainder m.poolYesReserve poolNo2 trTok.1 trTok.2
  else do
    let poolYes2 ← okOr (chkAdd64 m.poolYesReserve amount) .MathOverflow
    let trTok ← splTransfer st.userYes st.globalYes amount
    sellRemainder poolYes2 m.poolNoReserve trTok.1 trTok.2

end PM

namespace PM

/-- `Market::swap`: the shared prefix (pre-checks, reentrancy, trading
window, trade-size cap) followed by the buy or sell branch.  `effectiveB` is
the stage-adjusted b parameter in use for this trade (the market's `lmsr_b`
is overwritten with it for the duration of the trade and restored before
returning, so the post state keeps the original `lmsr_b`). -/
def marketSwap (maxSingleTradeBps : Nat) (currentSlot : Nat) (effectiveB : Nat)
    (st : SwapState) (amount : Nat) (direction tokenType : Nat)
    (minimumReceiveAmount : Nat) : Except PmError (SwapState × SwapResult) := do
  let m := st.market
  let _ ← requireThat (!m.isCompleted) .CurveAlreadyCompleted
  let _ ← requireThat (0 < amount) .InvalidAmount
  let _ ← requireThat (tokenType ≤ 1) .InvalidParameter
  let _ ← requireThat (direction ≤ 1) .InvalidParameter
  let _ ← requireThat (!m.swapInProgress) .ReentrancyDetected
  let _ ←
    match m.startSlot with
    | some s => requireThat (s ≤ currentSlot) .MarketNotStarted
    | none => pure ()
  let _ ←
    match m.endingSlot with
    | some e => requireThat (currentSlot < e) .MarketEnded
    | none => pure ()
  let mt ← okOr (chkMul128 m.poolCollateralReserve maxSingleTradeBps) .MathOverflow
  let maxTradeSize ← okOr (chkDiv mt BASIS_POINTS_DIVISOR) .MathOverflow
  let _ ← requireThat (amount ≤ asU64 maxTradeSize) .TradeSizeTooLarge
  if direction = 0 then
    swapBuyBranch effectiveB st amount tokenType minimumReceiveAmount
  else
    swapSellBranch effectiveB st amount tokenType minimumReceiveAmount

/-- The Swap instruction wrapper (Swap::handler): collateral-decimals check,
global and market pause gates, deadline, end-slot and completion checks, the
minimum-trading-liquidity floor, then delegation to `Market::swap`. -/
def swapIx (maxSingleTradeBps : Nat) (currentSlot : Nat)
    (currentTimestamp deadline : Int) (effectiveB : Nat) (usdcDecimals : Nat)
    (st : SwapState) (amount : Nat) (direction tokenType : Nat)
    (minimumReceiveAmount : Nat) : Except PmError (SwapState × SwapResult) := do
  let _ ← requireThat (usdcDecimals = USDC_DECIMALS) .InvalidParameter
  let _ ← requireThat (!st.config.isPaused) .ContractPaused
  let _ ← requireThat (!st.market.marketPaused) .MarketPaused
  let _ ←
    if 0 < deadline then
      requireThat (currentTimestamp ≤ deadline) .TransactionExpired
    else pure ()
  let _ ←
    match st.market.endingSlot with
    | some e => requireThat (currentSlot ≤ e) .MarketEnded
    | none => pure ()
  let _ ← requireThat (!st.market.isCompleted) .CurveAlreadyCompleted
  let _ ← requireThat (st.config.minTradingLiquidity ≤ st.market.poolCollateralReserve)
    .MarketBelowMinLiquidity
  marketSwap maxSingleTradeBps currentSlot effectiveB st amount direction
    tokenType minimumReceiveAmount

/-!
## Internal fee-free sells (LP withdrawal leg conversion)

Embedding of `Market::internal_sell_yes` / `internal_sell_no`
(src/programs/prediction-market/src/state/market.rs): the leftover single leg
is sold back through the calculator's sell-proceeds function, the LMSR
position and pool ledger are updated, and the slippage bookkeeping for the
event is computed with checked math.
-/

def internalSellYes (m : Market) (amount : Nat) : Except PmError (Market × Nat) := do
  let usdcOut ← calcSellProceeds m.lmsrB m.lmsrQYes m.lmsrQNo amount true
  let qYes2 ← okOr (chkAddI64 m.lmsrQYes (u64AsI64 amount)) .MathOverflow
  let poolYes2 ← okOr (chkAdd64 m.poolYesReserve amount) .MathOverflow
  let poolColl2 ← okOr (chkSub m.poolCollateralReserve usdcOut)
    .InsufficientLiquidity
  let _ ←
    if 0 < amount then do
      -- usdc_expected = amount; slippage = expected.saturating_sub(out)
      let slippage := amount - usdcOut
      let sp ← okOr (chkMul128 slippage BASIS_POINTS_DIVISOR) .MathOverflow
      let _ ← okOr (chkDiv sp amount) .MathOverflow
      pure ()
    else pure ()
  pure ({ m with
          lmsrQYes := qYes2
          poolYesReserve := poolYes2
          poolCollateralReserve := poolColl2 }, usdcOut)

def internalSellNo (m : Market) (amount : Nat) : Except PmError (Market × Nat) := do
  let usdcOut ← calcSellProceeds m.lmsrB m.lmsrQYes m.lmsrQNo amount false
  let qNo2 ← okOr (chkAddI64 m.lmsrQNo (u64AsI64 amount)) .MathOverflow
  let poolNo2 ← okOr (chkAdd64 m.poolNoReserve amount) .MathOverflow
  let poolColl2 ← okOr (chkSub m.poolCollateralReserve usdcOut)
    .InsufficientLiquidity
  let _ ←
    if 0 < amount then do
      let slippage := amount - usdcOut
      let sp ← okOr (chkMul128 slippage BASIS_POINTS_DIVISOR) .MathOverflow
      let _ ← okOr (chkDiv sp amount) .MathOverflow
      pure ()
    else pure ()
  pure ({ m with
          lmsrQNo := qNo2
          poolNoReserve := poolNo2
          poolCollateralReserve := poolColl2 }, usdcOut)

/-!
## add_liquidity

Embedding of the add_liquidity handler
(src/contract/programs/prediction-market/src/instructions/market/add_liquidity.rs).
`minLiquidity` stands for `crate::constants::MIN_LIQUIDITY` (modelled from
the spec: the first-LP share lock-up; its defining module is not under src/).
The handler consults the reentrancy flag, the configured minimum deposit, the
completion flag and the per-market pause flag; it never reads the global
`is_paused`.
-/

/-- Accounts and ledgers touched by the LP instructions. -/
structure LiqState where
  config : Config
  market : Market
  lpPos : LpPosition
  vaultUsdc : Nat
  userUsdc : Nat
  globalYes : Nat
  globalNo : Nat
  deriving Repr, DecidableEq

def addLiquidity (minLiquidity : Nat) (currentTimestamp : Int) (st : LiqState)
    (usdcAmount : Nat) : Except PmError (LiqState × Nat) := do
  let cfg := st.config
  let m := st.market
  let _ ← requireThat (!m.addLiquidityInProgress) .ReentrancyDetected
  let _ ← requireThat (cfg.minUsdcLiquidity ≤ usdcAmount) .ValueTooSmall
  let _ ← requireThat (!m.isCompleted) .MarketIsCompleted
  let _ ← requireThat (!m.marketPaused) .MarketPaused
  let plan ←
    if m.totalLpShares = 0 then do
      -- first LP: ratio-preserving seed from initial_yes_prob
      let yesRatioBps := m.initialYesProb
      let noRatioBps := BASIS_POINTS_DIVISOR - m.initialYesProb
      let ym ← okOr (chkMul128 usdcAmount yesRatioBps) .MathOverflow
      let yq ← okOr (chkDiv ym 10000) .MathOverflow
      let yesToMint := asU64 yq
      let nm ← okOr (chkMul128 usdcAmount noRatioBps) .MathOverflow
      let nq ← okOr (chkDiv nm 10000) .MathOverflow
      let noToMint := asU64 nq
      let totalMinted ← okOr (chkAdd64 yesToMint noToMint) .MathOverflow
      -- tolerance window uses saturating arithmetic in the source
      let _ ← requireThat
        (usdcAmount - 1 ≤ totalMinted ∧ totalMinted ≤ usdcAmount + 1)
        .InvalidAmount
      let completeSets := min yesToMint noToMint
      let directUsdc := usdcAmount - completeSets
      let shares := usdcAmount - minLiquidity
      let actualYesRatio :=
        if 0 < yesToMint + noToMint then
          yesToMint * 10000 / (yesToMint + noToMint)
        else 0
      let ratioDiff :=
        if yesRatioBps < actualYesRatio then actualYesRatio - yesRatioBps
        else yesRatioBps - actualYesRatio
      let _ ← requireThat (ratioDiff ≤ 200) .InvalidParameter
      pure (shares, yesToMint, noToMint, directUsdc)
    else do
      -- subsequent LP: value the pool at LMSR marginal prices
      let yesPrice ← lmsrMarginalPrice m.lmsrB m.lmsrQYes m.lmsrQNo
      let noPrice ← okOr (chkSub fpONE yesPrice) .MathOverflow
      let ypp ← fpMul yesPrice (fromU64 10000)
      let yesPricePct := toU64 ypp
      let _noPricePct := 10000 - yesPricePct
      let yv ← fpMul (fromU64 m.poolYesReserve) yesPrice
      let yesValue := toU64 yv
      let nv ← fpMul (fromU64 m.poolNoReserve) noPrice
      let noValue := toU64 nv
      let t1 ← okOr (chkAdd64 m.poolCollateralReserve yesValue) .MathOverflow
      let totalPoolValue ← okOr (chkAdd64 t1 noValue) .MathOverflow
      let sm ← okOr (chkMul128 usdcAmount m.totalLpShares) .MathOverflow
      let sq ← okOr (chkDiv sm totalPoolValue) .MathOverflow
      let shares := asU64 sq
      let nym ← okOr (chkMul128 m.poolYesReserve shares) .MathOverflow
      let nyq ← okOr (chkDiv nym m.totalLpShares) .MathOverflow
      let neededYes := asU64 nyq
      let nnm ← okOr (chkMul128 m.poolNoReserve shares) .MathOverflow
      let nnq ← okOr (chkDiv nnm m.totalLpShares) .MathOverflow
      let neededNo := asU64 nnq
      let num ← okOr (chkMul128 m.poolCollateralReserve shares) .MathOverflow
      let nuq ← okOr (chkDiv num m.totalLpShares) .MathOverflow
      let neededUsdc := asU64 nuq
      let completeSets := max neededYes neededNo
      pure (shares, completeSets, completeSets, neededUsdc)
  let shares := plan.1
  let yesToMint := plan.2.1
  let noToMint := plan.2.2.1
  let usdcToPool := plan.2.2.2
  let tr ← splTransfer st.userUsdc st.vaultUsdc usdcAmount
  let gy ← if 0 < yesToMint then splMintTo st.globalYes yesToMint
    else pure st.globalYes
  let gn ← if 0 < noToMint then splMintTo st.globalNo noToMint
    else pure st.globalNo
  let poolColl2 ← okOr (chkAdd64 m.poolCollateralReserve usdcToPool) .MathOverflow
  let poolYes2 ← okOr (chkAdd64 m.poolYesReserve yesToMint) .MathOverflow
  let poolNo2 ← okOr (chkAdd64 m.poolNoReserve noToMint) .MathOverflow
  let totalLp2 ← okOr (chkAdd64 m.totalLpShares shares) .MathOverflow
  let completeSetsMinted := min yesToMint noToMint
  let consSum ← okOr (chkAdd64 usdcToPool completeSetsMinted) .MathOverflow
  let _ ← requireThat (consSum = usdcAmount) .InvalidAmount
  let locked2 ← okOr (chkAdd64 m.totalCollateralLocked completeSetsMinted)
    .MathOverflow
  let yesMinted2 ← okOr (chkAdd64 m.totalYesMinted yesToMint) .MathOverflow
  let noMinted2 ← okOr (chkAdd64 m.totalNoMinted noToMint) .MathOverflow
  let snap : Nat × Nat × Int :=
    if m.initialYesReserve = 0 then (poolYes2, poolNo2, currentTimestamp)
    else (m.initialYesReserve, m.initialNoReserve, m.withdrawTrackingStart)
  let isNewPosition := st.lpPos.lpShares = 0
  let lpShares2 ← okOr (chkAdd64 st.lpPos.lpShares shares) .MathOverflow
  let invested2 ← okOr (chkAdd64 st.lpPos.investedUsdc usdcAmount) .MathOverflow
  pure ({ st with
          market := { m with
            poolCollateralReserve := poolColl2
            poolYesReserve := poolYes2
            poolNoReserve := poolNo2
            totalLpShares := totalLp2
            totalCollateralLocked := locked2
            totalYesMinted := yesMinted2
            totalNoMinted := noMinted2
            initialYesReserve := snap.1
            initialNoReserve := snap.2.1
            withdrawTrackingStart := snap.2.2 }
          lpPos :=
            { lpShares := lpShares2
              lastFeePerShare := m.feePerShareCumulative
              investedUsdc := invested2
              createdAt := if isNewPosition then currentTimestamp
                else st.lpPos.createdAt
              lastAddAt := currentTimestamp }
          vaultUsdc := tr.2
          userUsdc := tr.1
          globalYes := gy
          globalNo := gn }, shares)

end PM

namespace PM

/-!
## withdraw_liquidity

Embedding of the withdraw_liquidity handler
(src/programs/prediction-market/src/instructions/market/withdraw_liquidity.rs).
The protection-layer constants come from the constants module that is not
under src/, so they are bundled as parameters.
-/

/-- Modelled from the spec: the withdraw-protection constants from
`crate::constants` (module not under src/).  The spec gives the dynamic
withdrawal caps as 30/20/10/5 percent by imbalance band, the early-exit
penalties as 3/2/1 percent, circuit-breaker trigger ratio about 4:1,
minimum-reserve floor 10 percent and 24h-drain bound 50 percent; the exact
numbers stay abstract here. -/
structure WithdrawParams where
  imbalanceRatioMild : Nat
  imbalanceRatioModerate : Nat
  imbalanceRatioHigh : Nat
  balancedMaxWithdrawBps : Nat
  mildImbalanceMaxWithdrawBps : Nat
  moderateImbalanceMaxWithdrawBps : Nat
  highImbalanceMaxWithdrawBps : Nat
  earlyExitPenalty7d : Nat
  earlyExitPenalty14d : Nat
  earlyExitPenalty30d : Nat
  circuitBreakerRatioConst : Nat
  circuitBreakerMinReserveBps : Nat
  circuitBreakerWithdraw24hBps : Nat
  deriving Repr, DecidableEq

/-- `Market::get_imbalance_ratio`: `(larger / smaller) · 100`, u128::MAX when
one side is empty. -/
def getImbalanceRatio (m : Market) : Nat :=
  let larger := max m.poolYesReserve m.poolNoReserve
  let smaller := min m.poolYesReserve m.poolNoReserve
  if smaller = 0 then U128MOD - 1
  else larger * 100 / smaller

/-- The insurance-compensation computation of withdraw_liquidity (lines
517-557): inside the loss branch, compensation is paid only when the loss
rate strictly exceeds the configured threshold, and equals the minimum of
the bps-scaled loss, the global pool balance and the per-market
contribution.  Returns (compensation, loss_rate_bps). -/
def insuranceCompCalc (enabled : Bool)
    (thresholdBps maxCompBps globalBalance marketContribution : Nat)
    (usdcAfterPenalty investedShare : Nat) : Except PmError (Nat × Nat) := do
  if enabled ∧ usdcAfterPenalty < investedShare ∧ 0 < investedShare then do
    let loss ← okOr (chkSub investedShare usdcAfterPenalty) .MathOverflow
    let lb ← okOr (chkMul128 loss BASIS_POINTS_DIVISOR) .MathOverflow
    let lq ← okOr (chkDiv lb investedShare) .MathOverflow
    let lossBps := asU16 lq
    if thresholdBps < lossBps then do
      let mc ← okOr (chkMul128 loss maxCompBps) .MathOverflow
      let mq ← okOr (chkDiv mc BASIS_POINTS_DIVISOR) .MathOverflow
      let maxCompensation := asU64 mq
      let actualCompensation := min (min maxCompensation globalBalance)
        marketContribution
      if 0 < actualCompensation then pure (actualCompensation, lossBps)
      else pure (0, lossBps)
    else pure (0, lossBps)
  else pure (0, 0)

/-- The insurance-pool counter update of withdraw_liquidity (lines 711-724):
on a positive payout both the global pool balance and the per-market
contribution counter are decremented by the compensation, with checked
subtraction. -/
def insuranceCounterUpdate (globalBalance contribution compensation : Nat) :
    Except PmError (Nat × Nat) := do
  if 0 < compensation then do
    let g ← okOr (chkSub globalBalance compensation) .MathOverflow
    let c ← okOr (chkSub contribution compensation) .MathOverflow
    pure (g, c)
  else pure (globalBalance, contribution)

/-- Layer-2 dynamic withdrawal cap selection (withdraw_liquidity.rs lines
217-225): the max-withdraw bps band chosen from the pool imbalance ratio. -/
def maxWithdrawBpsFor (wp : WithdrawParams) (imbalanceRatio : Nat) : Nat :=
  if imbalanceRatio < wp.imbalanceRatioMild then wp.balancedMaxWithdrawBps
  else if imbalanceRatio < wp.imbalanceRatioModerate then
    wp.mildImbalanceMaxWithdrawBps
  else if imbalanceRatio < wp.imbalanceRatioHigh then
    wp.moderateImbalanceMaxWithdrawBps
  else wp.highImbalanceMaxWithdrawBps

/-- Layer-3 early-exit penalty selection (withdraw_liquidity.rs lines
253-261), keyed on the holding period in seconds. -/
def earlyExitPenaltyBpsFor (wp : WithdrawParams) (holdingPeriod : Int) : Nat :=
  if holdingPeriod < 7 * 24 * 3600 then wp.earlyExitPenalty7d
  else if holdingPeriod < 14 * 24 * 3600 then wp.earlyExitPenalty14d
  else if holdingPeriod < 30 * 24 * 3600 then wp.earlyExitPenalty30d
  else 0

/-- Circuit-breaker pre-flight (withdraw_liquidity.rs lines 652-689):
evaluated on the ledger-updated market; the `.unwrap_or(0)` saturating
subtractions are Nat subtraction.  Returns whether the withdrawal would
trigger the breaker. -/
def breakerPreflight (wp : WithdrawParams) (m2 : Market)
    (yesShare noShare usdcShare projectedWithdraw24h : Nat) :
    Except PmError Bool := do
  let poolYesAfter := m2.poolYesReserve - yesShare
  let poolNoAfter := m2.poolNoReserve - noShare
  let poolUsdcAfter := m2.poolCollateralReserve - usdcShare
  let tp1 ← okOr (chkAdd64 poolUsdcAfter poolYesAfter) .MathOverflow
  let totalPoolValueAfter ← okOr (chkAdd64 tp1 poolNoAfter) .MathOverflow
  let pair :=
    if poolNoAfter < poolYesAfter then (poolYesAfter, poolNoAfter)
    else (poolNoAfter, poolYesAfter)
  let ratioCheckAfter := decide (0 < pair.2) &&
    decide (wp.circuitBreakerRatioConst ≤ pair.1 / pair.2)
  let reserveCheckAfter :=
    (decide (0 < m2.initialYesReserve) &&
      decide (poolYesAfter < m2.initialYesReserve / 10)) ||
    (decide (0 < m2.initialNoReserve) &&
      decide (poolNoAfter < m2.initialNoReserve / 10))
  let withdrawCheckAfter :=
    decide (totalPoolValueAfter / 2 < projectedWithdraw24h)
  pure (ratioCheckAfter || reserveCheckAfter || withdrawCheckAfter)

/-- Circuit-breaker post-flight (withdraw_liquidity.rs lines 738-792),
evaluated on the fully updated market (ledger and 24h tracker already
written back); an empty side trips the ratio check outright. -/
def breakerPostflight (wp : WithdrawParams) (m2 : Market) :
    Except PmError Bool := do
  let pair :=
    if m2.poolNoReserve < m2.poolYesReserve then
      (m2.poolYesReserve, m2.poolNoReserve)
    else (m2.poolNoReserve, m2.poolYesReserve)
  let ratioCheck :=
    if 0 < pair.2 then decide (wp.circuitBreakerRatioConst ≤ pair.1 / pair.2)
    else true
  let ty ← okOr (chkMul128 m2.initialYesReserve wp.circuitBreakerMinReserveBps)
    .MathOverflow
  let tyq ← okOr (chkDiv ty BASIS_POINTS_DIVISOR) .MathOverflow
  let minReserveThresholdYes := asU64 tyq
  let tn ← okOr (chkMul128 m2.initialNoReserve wp.circuitBreakerMinReserveBps)
    .MathOverflow
  let tnq ← okOr (chkDiv tn BASIS_POINTS_DIVISOR) .MathOverflow
  let minReserveThresholdNo := asU64 tnq
  let reserveCheck := decide (m2.poolYesReserve < minReserveThresholdYes) ||
    decide (m2.poolNoReserve < minReserveThresholdNo)
  let tv1 ← okOr (chkAdd64 m2.poolCollateralReserve m2.poolYesReserve)
    .MathOverflow
  let totalPoolValue ← okOr (chkAdd64 tv1 m2.poolNoReserve) .MathOverflow
  let wt ← okOr (chkMul128 totalPoolValue wp.circuitBreakerWithdraw24hBps)
    .MathOverflow
  let wtq ← okOr (chkDiv wt BASIS_POINTS_DIVISOR) .MathOverflow
  let withdrawThreshold := asU64 wtq
  let withdrawCheck := decide (withdrawThreshold < m2.withdrawLast24h)
  pure (ratioCheck || reserveCheck || withdrawCheck)

/-- Gate and share-computation phase of the handler (lines 168-306):
returns the early-exit penalty bps and the usdc/yes/no proportional
shares. -/
def withdrawGates (wp : WithdrawParams) (currentTimestamp : Int)
    (st : LiqState) (lpShares : Nat) :
    Except PmError (Nat × Nat × Nat × Nat) := do
  let cfg := st.config
  let m := st.market
  let _ ← requireThat (!m.withdrawInProgress) .ReentrancyDetected
  let _ ← requireThat (!m.marketPaused) .MarketPaused
  let _ ← requireThat (!cfg.isPaused) .ContractPaused
  let _ ← requireThat (0 < lpShares) .InvalidAmount
  let _ ← requireThat (lpShares ≤ st.lpPos.lpShares) .InsufficientBalance
  let _ ← requireThat (0 < m.totalLpShares) .InsufficientLiquidity
  let _ ←
    if m.isCompleted ∧ !m.poolSettled then do
      let wm ← okOr (chkMul128 lpShares m.poolCollateralReserve) .MathOverflow
      let wq ← okOr (chkDiv wm m.totalLpShares) .MathOverflow
      let usdcToWithdraw := asU64 wq
      let reserveAfter ← okOr (chkSub m.poolCollateralReserve usdcToWithdraw)
        .MathOverflow
      requireThat (m.totalCollateralLocked ≤ reserveAfter)
        .InsufficientLiquidity
    else pure ()
  let _ ← requireThat (!m.circuitBreakerActive) .CircuitBreakerTriggered
  let maxWithdrawBps := maxWithdrawBpsFor wp (getImbalanceRatio m)
  let mwm ← okOr (chkMul128 m.totalLpShares maxWithdrawBps) .MathOverflow
  let mwq ← okOr (chkDiv mwm BASIS_POINTS_DIVISOR) .MathOverflow
  let _ ← requireThat (lpShares ≤ asU64 mwq) .ExcessiveWithdrawal
  let penaltyBps :=
    earlyExitPenaltyBpsFor wp (currentTimestamp - st.lpPos.createdAt)
  let usdcShare ← calculateProportionalShare m.poolCollateralReserve lpShares
    m.totalLpShares
  let yesShare ← calculateProportionalShare m.poolYesReserve lpShares
    m.totalLpShares
  let noShare ← calculateProportionalShare m.poolNoReserve lpShares
    m.totalLpShares
  pure (penaltyBps, usdcShare, yesShare, noShare)

/-- Paired redemption and internal-swap phase (lines 306-470): burns the
paired sets from the global ATAs, sells the leftover single side back to
the pool.  Returns the updated market, the leftover-sale USDC and the two
global token balances. -/
def withdrawRedeemPhase (st : LiqState) (yesShare noShare : Nat) :
    Except PmError (Market × Nat × Nat × Nat) := do
  let m := st.market
  let pairedSets := min yesShare noShare
  let leftoverYes := yesShare - pairedSets
  let leftoverNo := noShare - pairedSets
  let gPair ←
    if 0 < pairedSets then do
      let gy ← splBurn st.globalYes pairedSets
      let gn ← splBurn st.globalNo pairedSets
      pure (gy, gn)
    else pure (st.globalYes, st.globalNo)
  if 0 < leftoverYes then do
    let r ← internalSellYes m leftoverYes
    let gy2 ← splBurn gPair.1 leftoverYes
    pure (r.1, r.2, gy2, gPair.2)
  else if 0 < leftoverNo then do
    let r ← internalSellNo m leftoverNo
    let gn2 ← splBurn gPair.2 leftoverNo
    pure (r.1, r.2, gPair.1, gn2)
  else pure (m, 0, gPair.1, gPair.2)

/-- Settlement/pool ledger write-back (lines 584-634) on the post-swap
market. -/
def withdrawLedgerUpdate (m1 : Market)
    (pairedSets yesShare noShare usdcShare lpShares : Nat) :
    Except PmError Market := do
  let locked2 ← okOr (chkSub m1.totalCollateralLocked pairedSets) .MathOverflow
  let yesMinted2 ← okOr (chkSub m1.totalYesMinted yesShare) .MathOverflow
  let noMinted2 ← okOr (chkSub m1.totalNoMinted noShare) .MathOverflow
  let pc1 ← okOr (chkSub m1.poolCollateralReserve usdcShare) .MathOverflow
  let poolColl2 ← okOr (chkSub pc1 pairedSets) .MathOverflow
  let poolYes2 ← okOr (chkSub m1.poolYesReserve pairedSets) .MathOverflow
  let poolNo2 ← okOr (chkSub m1.poolNoReserve pairedSets) .MathOverflow
  let totalLp2 ← okOr (chkSub m1.totalLpShares lpShares) .MathOverflow
  pure { m1 with
    totalCollateralLocked := locked2
    totalYesMinted := yesMinted2
    totalNoMinted := noMinted2
    poolCollateralReserve := poolColl2
    poolYesReserve := poolYes2
    poolNoReserve := poolNo2
    totalLpShares := totalLp2 }

def withdrawLiquidity (wp : WithdrawParams) (currentTimestamp : Int)
    (st : LiqState) (lpShares minUsdcOut : Nat) :
    Except PmError (LiqState × Nat × Nat × Nat) := do
  let cfg := st.config
  let gates ← withdrawGates wp currentTimestamp st lpShares
  let earlyExitPenaltyBps := gates.1
  let usdcShare := gates.2.1
  let yesShare := gates.2.2.1
  let noShare := gates.2.2.2
  let pairedSets := min yesShare noShare
  let phase ← withdrawRedeemPhase st yesShare noShare
  let m1 := phase.1
  let leftoverUsdc := phase.2.1
  let globalYes2 := phase.2.2.1
  let globalNo2 := phase.2.2.2
  let g1 ← okOr (chkAdd64 usdcShare pairedSets) .MathOverflow
  let grossUsdc ← okOr (chkAdd64 g1 leftoverUsdc) .MathOverflow
  let pm ← okOr (chkMul128 grossUsdc earlyExitPenaltyBps) .MathOverflow
  let pq ← okOr (chkDiv pm BASIS_POINTS_DIVISOR) .MathOverflow
  let usdcAfterPenalty ← okOr (chkSub grossUsdc (asU64 pq)) .MathOverflow
  let investedUsdcShare ← calculateProportionalShare st.lpPos.investedUsdc
    lpShares st.market.totalLpShares
  let insurance ← insuranceCompCalc cfg.insurancePoolEnabled
    cfg.insuranceLossThresholdBps cfg.insuranceMaxCompensationBps
    cfg.lpInsurancePoolBalance m1.insurancePoolContribution
    usdcAfterPenalty investedUsdcShare
  let insuranceCompensation := insurance.1
  let lossRateBps := insurance.2
  let finalUsdcOut ← okOr (chkAdd64 usdcAfterPenalty insuranceCompensation)
    .MathOverflow
  let _ ← requireThat (minUsdcOut ≤ finalUsdcOut) .SlippageExceeded
  let m2 ← withdrawLedgerUpdate m1 pairedSets yesShare noShare usdcShare
    lpShares
  let trackingDuration := currentTimestamp - m2.withdrawTrackingStart
  let projectedWithdraw24h ←
    if 86400 ≤ trackingDuration then pure finalUsdcOut
    else okOr (chkAdd64 m2.withdrawLast24h finalUsdcOut) .MathOverflow
  let wouldTrigger ← breakerPreflight wp m2 yesShare noShare usdcShare
    projectedWithdraw24h
  let _ ← requireThat (!wouldTrigger) .WouldTriggerCircuitBreaker
  let tracker : Nat × Int :=
    if 86400 ≤ trackingDuration then (finalUsdcOut, currentTimestamp)
    else (projectedWithdraw24h, m2.withdrawTrackingStart)
  let lpShares2 ← okOr (chkSub st.lpPos.lpShares lpShares) .MathOverflow
  let invested2 ← okOr (chkSub st.lpPos.investedUsdc investedUsdcShare)
    .MathOverflow
  let insCounters ← insuranceCounterUpdate cfg.lpInsurancePoolBalance
    m2.insurancePoolContribution insuranceCompensation
  let m3 := { m2 with
    withdrawLast24h := tracker.1
    withdrawTrackingStart := tracker.2
    insurancePoolContribution := insCounters.2 }
  let shouldTrigger ← breakerPostflight wp m3
  let m4 :=
    if shouldTrigger then
      { m3 with circuitBreakerActive := true
                circuitBreakerTriggeredAt := currentTimestamp }
    else m3
  let trOut ←
    if 0 < finalUsdcOut then splTransfer st.vaultUsdc st.userUsdc finalUsdcOut
    else pure (st.vaultUsdc, st.userUsdc)
  pure ({ st with
          config := { cfg with lpInsurancePoolBalance := insCounters.1 }
          market := m4
          lpPos := { st.lpPos with
            lpShares := lpShares2
            investedUsdc := invested2 }
          vaultUsdc := trOut.1
          userUsdc := trOut.2
          globalYes := globalYes2
          globalNo := globalNo2 },
        finalUsdcOut, insuranceCompensation, lossRateBps)

/-!
## claim_lp_fees

Embedding of ClaimLpFees::handler
(src/contract/programs/prediction-market/src/instructions/market/claim_lp_fees.rs).
Returns the post market, position, vault and LP USDC balances and the
claimed amount.
-/

def claimLpFees (cfg : Config) (usdcDecimals : Nat) (m : Market)
    (lpPos : LpPosition) (vaultUsdc lpUsdc : Nat) :
    Except PmError (Market × LpPosition × Nat × Nat × Nat) := do
  let _ ← requireThat (!m.claimInProgress) .ReentrancyDetected
  let _ ← requireThat (usdcDecimals = USDC_DECIMALS) .InvalidParameter
  let _ ← requireThat (!cfg.isPaused) .ContractPaused
  let _ ← requireThat (0 < m.totalLpShares) .InsufficientLiquidity
  let delta ← okOr (chkSub m.feePerShareCumulative lpPos.lastFeePerShare)
    .MathOverflow
  let cf ← okOr (chkMul128 lpPos.lpShares delta) .MathOverflow
  let claimable ← okOr (chkDiv cf FEE_PER_SHARE_PRECISION) .MathOverflow
  let _ ← requireThat (claimable ≤ U64MOD - 1) .MathOverflow
  let feesAmount := claimable
  if feesAmount = 0 then pure (m, lpPos, vaultUsdc, lpUsdc, 0)
  else do
    let _ ← requireThat (feesAmount ≤ vaultUsdc) .InsufficientLiquidity
    let _ ← requireThat (feesAmount ≤ m.accumulatedLpFees) .InsufficientBalance
    let acc2 ← okOr (chkSub m.accumulatedLpFees feesAmount) .MathOverflow
    let remainingAfter := wrapI64 ((vaultUsdc : Int) - (feesAmount : Int))
    let _ ← requireThat (cfg.usdcVaultMinBalance ≤ intAsU64 remainingAfter)
      .InsufficientBalance
    let tr ← splTransfer vaultUsdc lpUsdc feesAmount
    let s1 ← okOr (chkAdd64 m.poolCollateralReserve m.totalCollateralLocked)
      .MathOverflow
    let _ ← okOr (chkAdd64 s1 acc2) .MathOverflow
    pure ({ m with accumulatedLpFees := acc2 },
      { lpPos with lastFeePerShare := m.feePerShareCumulative },
      tr.1, tr.2, feesAmount)

end PM

namespace PM

/-!
## Spec-modelled comparison definitions, sample states and the step relation
-/

/-- Modelled from the spec: the insurance-compensation rule as the spec words
it — "if loss_bps >= insurance_loss_threshold_bps, compensation =
min(loss x insurance_max_compensation_bps / 10000, global.insurance_pool_balance,
market.insurance_pool_contribution)" — written for the comparison with the
code's `insuranceCompCalc` (which uses a strict comparison instead). -/
def insuranceCompensationSpec (thresholdBps maxCompBps globalBalance
    marketContribution usdcAfterPenalty investedShare : Nat) : Nat :=
  let loss := investedShare - usdcAfterPenalty
  let lossBps := loss * BASIS_POINTS_DIVISOR / investedShare
  if thresholdBps ≤ lossBps then
    min (min (loss * maxCompBps / BASIS_POINTS_DIVISOR) globalBalance)
      marketContribution
  else 0

/-- A benign global config: no fees, not paused, no minimums, insurance off. -/
def baseConfig : Config :=
  { platformBuyFee := 0, platformSellFee := 0, lpBuyFee := 0, lpSellFee := 0
    isPaused := false, usdcVaultMinBalance := 0, minUsdcLiquidity := 0
    minTradingLiquidity := 0, lpInsurancePoolBalance := 0
    lpInsuranceAllocationBps := 0, insuranceLossThresholdBps := 0
    insuranceMaxCompensationBps := 0, insurancePoolEnabled := false }

/-- A freshly-created market: all ledgers zero, no locks, 50/50 prior. -/
def baseMarket : Market :=
  { totalCollateralLocked := 0, totalYesMinted := 0, totalNoMinted := 0
    poolCollateralReserve := 0, poolYesReserve := 0, poolNoReserve := 0
    totalLpShares := 0, lmsrB := 0, lmsrQYes := 0, lmsrQNo := 0
    tokenYesTotalSupply := 0, tokenNoTotalSupply := 0, isCompleted := false
    startSlot := none, endingSlot := none, resolutionYesRatio := 0
    resolutionNoRatio := 0, winnerTokenType := 0, swapInProgress := false
    addLiquidityInProgress := false, withdrawInProgress := false
    claimInProgress := false, accumulatedLpFees := 0
    feePerShareCumulative := 0, poolSettled := false, initialYesProb := 5000
    insurancePoolContribution := 0, circuitBreakerActive := false
    circuitBreakerTriggeredAt := 0, withdrawLast24h := 0
    withdrawTrackingStart := 0, initialYesReserve := 0, initialNoReserve := 0
    hasFeeOverride := false, platformBuyFeeOverride := 0
    platformSellFeeOverride := 0, lpBuyFeeOverride := 0
    lpSellFeeOverride := 0, marketPaused := false, sentinelNoMinted := false }

/-- A small market sitting exactly at the boundary the hard cap leaves open:
b = 5 with positions (5, 0), so a majority buy of 5 tokens lands on
imbalance 10 = 2·b. -/
def c2Market : Market :=
  { baseMarket with
    lmsrB := 5
    lmsrQYes := 5
    lmsrQNo := 0
    poolCollateralReserve := 100
    poolYesReserve := 100
    poolNoReserve := 100 }

def c2SwapState : SwapState :=
  { config := baseConfig
    market := c2Market
    userUsdc := 100
    vaultUsdc := 100
    teamUsdc := 0
    userYes := 0
    userNo := 0
    globalYes := 100
    globalNo := 100 }

/-- A resolved market (YES wins) for the claim-rewards witnesses. -/
def c3Market : Market :=
  { baseMarket with
    isCompleted := true
    resolutionYesRatio := 10000
    resolutionNoRatio := 0
    totalCollateralLocked := 10
    totalYesMinted := 10
    totalNoMinted := 10
    tokenYesTotalSupply := 10
    tokenNoTotalSupply := 10
    poolCollateralReserve := 50 }

/-- A user holding 3 YES and 2 NO against `c3Market` (payout 3). -/
def c3StateA : SetOpState :=
  { market := c3Market, vaultUsdc := 100, userUsdc := 7, userYes := 3
    userNo := 2 }

/-- A user holding only 2 losing-side NO tokens against `c3Market`
(payout 0). -/
def c3StateB : SetOpState :=
  { market := c3Market, vaultUsdc := 100, userUsdc := 7, userYes := 0
    userNo := 2 }

/-- A fresh market and a funded user for the mint/redeem round trip. -/
def c4State : SetOpState :=
  { market := baseMarket, vaultUsdc := 100, userUsdc := 100, userYes := 0
    userNo := 0 }

/-- A globally PAUSED config over a fresh market: the add-liquidity pause
test state. -/
def c10LiqState : LiqState :=
  { config := { baseConfig with isPaused := true }
    market := baseMarket
    lpPos := { lpShares := 0, lastFeePerShare := 0, investedUsdc := 0
               createdAt := 0, lastAddAt := 0 }
    vaultUsdc := 0, userUsdc := 100000, globalYes := 0, globalNo := 0 }

/-- One successful instruction of the embedded surface, viewed as a
transition on the market account. -/
inductive Step : Market → Market → Prop where
  | mint (cfg : Config) (d : Nat) (st : SetOpState) (a : Nat)
      (st' : SetOpState) (h : mintCompleteSet cfg d st a = .ok st') :
      Step st.market st'.market
  | redeem (cfg : Config) (d : Nat) (st : SetOpState) (a : Nat)
      (st' : SetOpState) (h : redeemCompleteSet cfg d st a = .ok st') :
      Step st.market st'.market
  | claimRw (cfg : Config) (d : Nat) (st : SetOpState)
      (r : SetOpState × Nat) (h : claimRewards cfg d st = .ok r) :
      Step st.market r.1.market
  | swap (mbps slot : Nat) (ts dl : Int) (eb d : Nat) (st : SwapState)
      (am dir tt mra : Nat) (r : SwapState × SwapResult)
      (h : swapIx mbps slot ts dl eb d st am dir tt mra = .ok r) :
      Step st.market r.1.market
  | addLiq (ml : Nat) (t : Int) (st : LiqState) (u : Nat)
      (r : LiqState × Nat) (h : addLiquidity ml t st u = .ok r) :
      Step st.market r.1.market
  | withdraw (wp : WithdrawParams) (t : Int) (st : LiqState) (l mo : Nat)
      (r : LiqState × Nat × Nat × Nat)
      (h : withdrawLiquidity wp t st l mo = .ok r) :
      Step st.market r.1.market
  | claimFees (cfg : Config) (d : Nat) (m : Market) (lp : LpPosition)
      (v lu : Nat) (r : Market × LpPosition × Nat × Nat × Nat)
      (h : claimLpFees cfg d m lp v lu = .ok r) : Step m r.1
  | resolve (auth : Bool) (slot gy gn : Nat) (m : Market) (ya na tt : Nat)
      (ic : Bool) (m' : Market)
      (h : resolutionHandler auth slot gy gn m ya na tt ic = .ok m') :
      Step m m'

/-- Invariant I5 of the spec: once a market is completed, its resolution
ratios sum to exactly BASIS_POINTS_DIVISOR (10000). -/
def ResolutionRatioInv (m : Market) : Prop :=
  m.isCompleted = true →
  m.resolutionYesRatio + m.resolutionNoRatio = BASIS_POINTS_DIVISOR

end PM

namespace PM

/-!
## Proof toolkit
-/

@[simp] theorem ok_bind {α β : Type} (a : α) (f : α → Except PmError β) :
    (Except.ok a >>= f) = f a := rfl

@[simp] theorem error_bind {α β : Type} (e : PmError) (f : α → Except PmError β) :
    ((Except.error e : Except PmError α) >>= f) = .error e := rfl

@[simp] theorem map_ok {α β : Type} (g : α → β) (a : α) :
    (g <$> (Except.ok a : Except PmError α)) = .ok (g a) := rfl

@[simp] theorem map_error {α β : Type} (g : α → β) (e : PmError) :
    (g <$> (Except.error e : Except PmError α)) = .error e := rfl

@[simp] theorem pure_eq_ok {α : Type} (a : α) :
    (pure a : Except PmError α) = .ok a := rfl

theorem bind_ok_iff {α β : Type} {x : Except PmError α} {f : α → Except PmError β} {b : β} :
    (x >>= f) = .ok b ↔ ∃ a, x = .ok a ∧ f a = .ok b := by
  cases x <;> simp

theorem requireThat_ok_iff {c : Bool} {e : PmError} {u : Unit} :
    requireThat c e = .ok u ↔ c = true := by
  cases c <;> simp [requireThat]

theorem okOr_ok_iff {α : Type} {o : Option α} {e : PmError} {a : α} :
    okOr o e = .ok a ↔ o = some a := by
  cases o <;> simp [okOr]

end PM

namespace PM

set_option maxRecDepth 40000 in
/-- C9: on every input on which they succeed — amount 0 and zero true cost
difference included — `lmsr_buy_cost` and `lmsr_sell_payout` return at least
1 smallest collateral unit: the final `.max(1)` clamp is applied on the
normal path too, so no trade is priced at zero and every sell is credited at
least 1 unit.  The two closing conjuncts exhibit the boundary instance
amount = 0, where the cost difference is 0 and the result is exactly 1. -/
theorem C9_minimum_one_clamp :
    (∀ (b : Nat) (qYes qNo : Int) (amount : Nat) (isYes : Bool) (v : Nat),
        lmsrBuyCost b qYes qNo amount isYes = .ok v → 1 ≤ v) ∧
    (∀ (b : Nat) (qYes qNo : Int) (amount : Nat) (isYes : Bool) (v : Nat),
        lmsrSellPayout b qYes qNo amount isYes = .ok v → 1 ≤ v) ∧
    lmsrBuyCost 1000 0 0 0 true = .ok 1 ∧
    lmsrSellPayout 1000 0 0 0 true = .ok 1 := by
  refine ⟨?_, ?_, by rfl, by rfl⟩
  · intro b qYes qNo amount isYes v h
    simp only [lmsrBuyCost] at h
    obtain ⟨cb, -, h⟩ := bind_ok_iff.mp h
    split at h
    all_goals
      obtain ⟨n2, -, h⟩ := bind_ok_iff.mp h
      obtain ⟨y, -, h⟩ := bind_ok_iff.mp h
      obtain ⟨ca, -, h⟩ := bind_ok_iff.mp h
      simp only [pure_eq_ok, Except.ok.injEq] at h
      subst h
      exact le_max_right _ _
  · intro b qYes qNo amount isYes v h
    simp only [lmsrSellPayout] at h
    obtain ⟨cb, -, h⟩ := bind_ok_iff.mp h
    split at h
    all_goals
      obtain ⟨n2, -, h⟩ := bind_ok_iff.mp h
      obtain ⟨y, -, h⟩ := bind_ok_iff.mp h
      obtain ⟨ca, -, h⟩ := bind_ok_iff.mp h
      simp only [pure_eq_ok, Except.ok.injEq] at h
      subst h
      exact le_max_right _ _

set_option maxRecDepth 40000 in
/-- C7: the claim says `fp_ln` errors exactly below a domain bound of about
1e-4 in Q64.64 (x < ~0.0001·2^64 ≈ 1.8447e15) and succeeds at or above it.
The code diverges: the input 10^16 lies above that bound (and far above the
code's own `MIN_LN_INPUT` guard), yet `fp_ln` fails with MathOverflow,
because for every input below `2^64` (i.e. below 1.0) the negative logarithm
makes the final `result - |e|·ln2` checked subtraction underflow. -/
theorem C7_fpLn_domain_code_bug :
    fpLn (10 ^ 16) = .error .MathOverflow ∧
    1844674407370955 ≤ (10 : Nat) ^ 16 ∧
    MIN_LN_INPUT ≤ 10 ^ 16 := by
  refine ⟨by rfl, by decide, by decide⟩

set_option maxRecDepth 100000 in
/-- C8: the claim says the binary search returns mid as soon as the buy cost
is within 1e-4 collateral units (100 smallest units) of amount_in.  The code
constant CONVERGENCE_THRESHOLD is 100_000 (0.1 USDC), 1000× the claimed
value: at b = 10000 and positions (0, 0), 5000 units of collateral return
7500 tokens whose buy cost is 4437 — the search accepted a gap of 563 > 100
units, which the claimed threshold would have rejected. -/
theorem C8_convergence_threshold_code_bug :
    lmsrTokensForUsdc 10000 0 0 5000 true = .ok 7500 ∧
    lmsrBuyCost 10000 0 0 7500 true = .ok 4437 ∧
    CONVERGENCE_THRESHOLD = 100000 ∧
    100 < 5000 - 4437 := by
  refine ⟨by rfl, by rfl, by rfl, by decide⟩

end PM

namespace PM

/-- C4: for every amount > 0 on a market with is_completed == false and the
global pause flag clear (with room in every u64 counter), mint_complete_set
followed by redeem_complete_set of the same amount returns the state to
exactly its starting value — in particular total_collateral_locked,
total_yes_minted, total_no_minted and the vault collateral balance are
restored. -/
theorem C4_mint_redeem_roundtrip
    (cfg : Config) (st : SetOpState) (a : Nat)
    (hpause : cfg.isPaused = false)
    (hcomp : st.market.isCompleted = false)
    (hpos : 0 < a)
    (huser : a ≤ st.userUsdc)
    (husermod : st.userUsdc < U64MOD)
    (hvault : st.vaultUsdc + a < U64MOD)
    (huy : st.userYes + a < U64MOD)
    (hun : st.userNo + a < U64MOD)
    (hym : st.market.totalYesMinted + a < U64MOD)
    (hnm : st.market.totalNoMinted + a < U64MOD)
    (hys : st.market.tokenYesTotalSupply + a < U64MOD)
    (hns : st.market.tokenNoTotalSupply + a < U64MOD)
    (hsnap : st.market.poolCollateralReserve + (st.market.totalCollateralLocked + a) +
      st.market.accumulatedLpFees < U64MOD) :
    ∃ st1, mintCompleteSet cfg USDC_DECIMALS st a = .ok st1 ∧
      redeemCompleteSet cfg USDC_DECIMALS st1 a = .ok st := by
  have hlock : st.market.totalCollateralLocked + a < U64MOD := by omega
  have hsnap1 : st.market.poolCollateralReserve +
      (st.market.totalCollateralLocked + a) < U64MOD := by omega
  refine ⟨{ market := { st.market with
              totalCollateralLocked := st.market.totalCollateralLocked + a
              totalYesMinted := st.market.totalYesMinted + a
              totalNoMinted := st.market.totalNoMinted + a
              tokenYesTotalSupply := st.market.tokenYesTotalSupply + a
              tokenNoTotalSupply := st.market.tokenNoTotalSupply + a }
            vaultUsdc := st.vaultUsdc + a
            userUsdc := st.userUsdc - a
            userYes := st.userYes + a
            userNo := st.userNo + a }, ?_, ?_⟩
  · simp [mintCompleteSet, splTransfer, splMintTo, requireThat, okOr, chkAdd64,
      chkSub, hpause, hcomp, hpos, huser, hvault, huy, hun, hlock, hym, hnm,
      hys, hns, hsnap1, hsnap]
  · have h2 : a ≤ st.userYes + a := Nat.le_add_left a _
    have h3 : a ≤ st.userNo + a := Nat.le_add_left a _
    have h4 : a ≤ st.market.totalCollateralLocked + a := Nat.le_add_left a _
    have h5 : a ≤ st.vaultUsdc + a := Nat.le_add_left a _
    have h6 : st.userUsdc - a + a < U64MOD := by omega
    have h7 : a ≤ st.market.totalYesMinted + a := Nat.le_add_left a _
    have h8 : a ≤ st.market.totalNoMinted + a := Nat.le_add_left a _
    have h9 : a ≤ st.market.tokenYesTotalSupply + a := Nat.le_add_left a _
    have h10 : a ≤ st.market.tokenNoTotalSupply + a := Nat.le_add_left a _
    have h11 : st.market.poolCollateralReserve +
        st.market.totalCollateralLocked < U64MOD := by omega
    have h12 : st.market.poolCollateralReserve +
        st.market.totalCollateralLocked + st.market.accumulatedLpFees <
        U64MOD := by omega
    simp [redeemCompleteSet, splTransfer, splBurn, requireThat, okOr, chkAdd64,
      chkSub, hpause, hcomp, hpos, h2, h3, h4, h5, h6, h7, h8, h9, h10, h11,
      h12, Nat.add_sub_cancel]
    rw [Nat.sub_add_cancel huser, ← hcomp]

/-- C4 witness: the round trip at amount 5 on the fresh sample market. -/
theorem C4_mint_redeem_roundtrip_witness :
    ∃ st1, mintCompleteSet baseConfig USDC_DECIMALS c4State 5 = .ok st1 ∧
      redeemCompleteSet baseConfig USDC_DECIMALS st1 5 = .ok c4State :=
  C4_mint_redeem_roundtrip baseConfig c4State 5 rfl rfl (by decide) (by decide)
    (by decide) (by decide) (by decide) (by decide) (by decide) (by decide)
    (by decide) (by decide) (by decide)

end PM

namespace PM

@[simp] theorem throw_eq_error {α : Type} (e : PmError) :
    (throw e : Except PmError α) = .error e := rfl

/-- C2 (amended): the hard cap fires on `≥ 2·b` pre-trade — buying the
majority side is rejected with PoolTooImbalanced while the minority side
passes the check — but after a successful buy the post-trade imbalance
satisfies only `|q_yes − q_no| ≤ 2·b` (apply_buy admits equality), not the
claimed strict `< 2·b`. -/
theorem C2_hard_cap_amended
    (b : Nat) (qYes qNo : Int) (tMaj tMin : Nat) (cap : Nat)
    (hcap : chkMul64 b MAX_POSITION_IMBALANCE_MULTIPLIER = some cap)
    (himb : cap ≤ (qYes - qNo).natAbs)
    (hmaj : tMaj = (if qNo < qYes then 1 else 0))
    (hmin : tMin ≠ (if qNo < qYes then 1 else 0))
    (b' : Nat) (qYes' qNo' : Int) (net tt' : Nat) (r : Nat × Int × Int)
    (hb' : b' < 2 ^ 63)
    (happly : applyBuy b' qYes' qNo' net tt' = .ok r) :
    hardCapCheck b qYes qNo tMaj = .error .PoolTooImbalanced ∧
    hardCapCheck b qYes qNo tMin = .ok () ∧
    (r.2.1 - r.2.2).natAbs ≤ MAX_POSITION_IMBALANCE_MULTIPLIER * b' := by
  refine ⟨?_, ?_, ?_⟩
  · simp [hardCapCheck, hcap, himb, hmaj, requireThat, okOr]
  · simp [hardCapCheck, hcap, himb, hmin, requireThat, okOr]
  · simp only [applyBuy] at happly
    split at happly
    · obtain ⟨y1, -, happly⟩ := bind_ok_iff.mp happly
      split at happly
      · rename_i p hp
        obtain ⟨pos, hpos0, happly⟩ := bind_ok_iff.mp happly
        simp only [pure_eq_ok, Except.ok.injEq] at hpos0
        subst hpos0
        split at happly
        · rename_i v hv
          obtain ⟨v2, hv2, happly⟩ := bind_ok_iff.mp happly
          simp only [pure_eq_ok, Except.ok.injEq] at hv2
          subst hv2
          split at happly
          · simp at happly
          · rename_i hle
            simp only [pure_eq_ok, Except.ok.injEq] at happly
            subst happly
            have hval : u64AsI64 b' = (b' : Int) := by
              unfold u64AsI64
              rw [if_pos hb']
            simp only [chkMulI64, hval] at hv
            split at hv
            · simp only [Option.some.injEq] at hv
              subst hv
              push_neg at hle
              have h2 : ((p.1 - p.2).natAbs : Int) ≤
                  (b' : Int) * (MAX_POSITION_IMBALANCE_MULTIPLIER : Int) := hle
              have h3 : (p.1 - p.2).natAbs ≤
                  b' * MAX_POSITION_IMBALANCE_MULTIPLIER := by
                exact_mod_cast h2
              simpa [Nat.mul_comm] using h3
            · simp at hv
        · simp at happly
      · simp at happly
    · simp at happly

set_option maxRecDepth 40000 in
/-- C2 witness: at b = 5 and positions (10, 0) the imbalance is 10 = 2·b, so
the majority (YES) buy is rejected and the minority (NO) buy passes; applying
the amended post-trade bound to the successful buy applyBuy 5 (5,0) 5 YES
gives imbalance exactly 2·5. -/
theorem C2_hard_cap_amended_witness :
    hardCapCheck 5 10 0 1 = .error .PoolTooImbalanced ∧
    hardCapCheck 5 10 0 0 = .ok () ∧
    (((5, 10, 0) : Nat × Int × Int).2.1 - ((5, 10, 0) : Nat × Int × Int).2.2).natAbs ≤
      MAX_POSITION_IMBALANCE_MULTIPLIER * 5 :=
  C2_hard_cap_amended 5 10 0 1 0 10 (by decide) (by decide) (by decide)
    (by decide) 5 5 0 5 1 (5, 10, 0) (by decide) (by rfl)

set_option maxRecDepth 100000 in
/-- C2 counterexample (to the original strict bound): a full successful
`Market::swap` buy of the majority YES side at effective b = 5 from
positions (5, 0) ends at positions (10, 0): the post-trade imbalance is
10 = 2·lmsr_b, violating the claimed strict `|q_yes − q_no| < 2·lmsr_b`. -/
theorem C2_hard_cap_equality_counterexample :
    ∃ r, marketSwap 10000 0 5 c2SwapState 5 0 1 0 = .ok r ∧
      r.1.market.lmsrQYes = 10 ∧ r.1.market.lmsrQNo = 0 ∧
      r.1.market.lmsrB = 5 ∧
      ¬((r.1.market.lmsrQYes - r.1.market.lmsrQNo).natAbs <
        2 * r.1.market.lmsrB) := by
  refine ⟨_, rfl, by decide, by decide, by decide, by decide⟩

end PM

namespace PM

/-- C1 (amended): when the saturated cost comparison reverses (cost_after <
cost_before on a buy, cost_before < cost_after on a sell), the calculator
prices the trade at `to_u64(from_u64(amount) · marginal_price(b, q_yes,
q_no))` — the floor of amount times the pre-trade marginal price, clamped to
at least 1 — ONLY on inputs where the marginal-price computation itself
succeeds; when `lmsr_marginal_price` fails (for instance q/b beyond
MAX_EXP_INPUT), both `lmsr_buy_cost` and `lmsr_sell_payout` return the
static fraction `amount / MIN_COST_DIVISOR` = amount/100 (clamped to at
least 1) that the spec forbids. -/
theorem C1_double_negative_fallback_amended :
    (∀ (b : Nat) (qy qn : Int) (a : Nat) (iy : Bool) (after : Int × Int)
        (cb ca mp f : Nat),
      (if iy then (chkAddI64 qy (u64AsI64 a)).map (fun v => (v, qn))
       else (chkAddI64 qn (u64AsI64 a)).map (fun v => (qy, v))) = some after →
      lmsrCost b qy qn = .ok cb →
      lmsrCost b after.1 after.2 = .ok ca →
      ca < cb →
      lmsrMarginalPrice b qy qn = .ok mp →
      fpMul (fromU64 a) mp = .ok f →
      lmsrBuyCost b qy qn a iy = .ok (max (toU64 f) 1)) ∧
    (∀ (b : Nat) (qy qn : Int) (a : Nat) (iy : Bool) (after : Int × Int)
        (cb ca mp f : Nat),
      (if iy then (chkSubI64 qy (u64AsI64 a)).map (fun v => (v, qn))
       else (chkSubI64 qn (u64AsI64 a)).map (fun v => (qy, v))) = some after →
      lmsrCost b qy qn = .ok cb →
      lmsrCost b after.1 after.2 = .ok ca →
      cb < ca →
      lmsrMarginalPrice b qy qn = .ok mp →
      fpMul (fromU64 a) mp = .ok f →
      lmsrSellPayout b qy qn a iy = .ok (max (toU64 f) 1)) ∧
    (∀ (b : Nat) (qy qn : Int) (a : Nat) (iy : Bool) (after : Int × Int)
        (cb ca : Nat) (e : PmError),
      (if iy then (chkAddI64 qy (u64AsI64 a)).map (fun v => (v, qn))
       else (chkAddI64 qn (u64AsI64 a)).map (fun v => (qy, v))) = some after →
      lmsrCost b qy qn = .ok cb →
      lmsrCost b after.1 after.2 = .ok ca →
      ca < cb →
      lmsrMarginalPrice b qy qn = .error e →
      lmsrBuyCost b qy qn a iy = .ok (max (a / MIN_COST_DIVISOR) 1)) ∧
    (∀ (b : Nat) (qy qn : Int) (a : Nat) (iy : Bool) (after : Int × Int)
        (cb ca : Nat) (e : PmError),
      (if iy then (chkSubI64 qy (u64AsI64 a)).map (fun v => (v, qn))
       else (chkSubI64 qn (u64AsI64 a)).map (fun v => (qy, v))) = some after →
      lmsrCost b qy qn = .ok cb →
      lmsrCost b after.1 after.2 = .ok ca →
      cb < ca →
      lmsrMarginalPrice b qy qn = .error e →
      lmsrSellPayout b qy qn a iy = .ok (max (a / MIN_COST_DIVISOR) 1)) := by
  refine ⟨?_, ?_, ?_, ?_⟩
  · intro b qy qn a iy after cb ca mp f ha hcb hca hlt hmp hfp
    simp only [lmsrBuyCost]
    rw [hcb]
    simp only [ok_bind]
    cases iy with
    | true =>
      simp only [if_true] at ha ⊢
      obtain ⟨ny, hny, hafter⟩ := Option.map_eq_some'.mp ha
      subst hafter
      rw [hny]
      simp only [okOr, ok_bind, pure_eq_ok]
      rw [hca]
      simp only [ok_bind, pure_eq_ok]
      rw [if_neg (Nat.not_le.mpr hlt), hmp]
      simp [hfp, Nat.max_assoc]
    | false =>
      simp only [Bool.false_eq_true, if_false] at ha ⊢
      obtain ⟨nn, hnn, hafter⟩ := Option.map_eq_some'.mp ha
      subst hafter
      rw [hnn]
      simp only [okOr, ok_bind, pure_eq_ok]
      rw [hca]
      simp only [ok_bind, pure_eq_ok]
      rw [if_neg (Nat.not_le.mpr hlt), hmp]
      simp [hfp, Nat.max_assoc]
  · intro b qy qn a iy after cb ca mp f ha hcb hca hlt hmp hfp
    simp only [lmsrSellPayout]
    rw [hcb]
    simp only [ok_bind]
    cases iy with
    | true =>
      simp only [if_true] at ha ⊢
      obtain ⟨ny, hny, hafter⟩ := Option.map_eq_some'.mp ha
      subst hafter
      rw [hny]
      simp only [okOr, ok_bind, pure_eq_ok]
      rw [hca]
      simp only [ok_bind, pure_eq_ok]
      rw [if_neg (Nat.not_le.mpr hlt), hmp]
      simp [hfp, Nat.max_assoc]
    | false =>
      simp only [Bool.false_eq_true, if_false] at ha ⊢
      obtain ⟨nn, hnn, hafter⟩ := Option.map_eq_some'.mp ha
      subst hafter
      rw [hnn]
      simp only [okOr, ok_bind, pure_eq_ok]
      rw [hca]
      simp only [ok_bind, pure_eq_ok]
      rw [if_neg (Nat.not_le.mpr hlt), hmp]
      simp [hfp, Nat.max_assoc]
  · intro b qy qn a iy after cb ca e ha hcb hca hlt hmp
    simp only [lmsrBuyCost]
    rw [hcb]
    simp only [ok_bind]
    cases iy with
    | true =>
      simp only [if_true] at ha ⊢
      obtain ⟨ny, hny, hafter⟩ := Option.map_eq_some'.mp ha
      subst hafter
      rw [hny]
      simp only [okOr, ok_bind, pure_eq_ok]
      rw [hca]
      simp only [ok_bind, pure_eq_ok]
      rw [if_neg (Nat.not_le.mpr hlt), hmp]
      simp [Nat.max_assoc]
    | false =>
      simp only [Bool.false_eq_true, if_false] at ha ⊢
      obtain ⟨nn, hnn, hafter⟩ := Option.map_eq_some'.mp ha
      subst hafter
      rw [hnn]
      simp only [okOr, ok_bind, pure_eq_ok]
      rw [hca]
      simp only [ok_bind, pure_eq_ok]
      rw [if_neg (Nat.not_le.mpr hlt), hmp]
      simp [Nat.max_assoc]
  · intro b qy qn a iy after cb ca e ha hcb hca hlt hmp
    simp only [lmsrSellPayout]
    rw [hcb]
    simp only [ok_bind]
    cases iy with
    | true =>
      simp only [if_true] at ha ⊢
      obtain ⟨ny, hny, hafter⟩ := Option.map_eq_some'.mp ha
      subst hafter
      rw [hny]
      simp only [okOr, ok_bind, pure_eq_ok]
      rw [hca]
      simp only [ok_bind, pure_eq_ok]
      rw [if_neg (Nat.not_le.mpr hlt), hmp]
      simp [Nat.max_assoc]
    | false =>
      simp only [Bool.false_eq_true, if_false] at ha ⊢
      obtain ⟨nn, hnn, hafter⟩ := Option.map_eq_some'.mp ha
      subst hafter
      rw [hnn]
      simp only [okOr, ok_bind, pure_eq_ok]
      rw [hca]
      simp only [ok_bind, pure_eq_ok]
      rw [if_neg (Nat.not_le.mpr hlt), hmp]
      simp [Nat.max_assoc]

set_option maxRecDepth 100000 in
/-- C1 counterexample (to the original "never a static fraction" claim): at
b = 1000000 and positions (44000000, 44000000), a buy of 10000 reverses the
saturated cost comparison (cost drops 44693147 → 44655393 by fp_ln Taylor
truncation just below 2.0), the marginal price fails with ValueTooLarge
(q/b = 44 exceeds MAX_EXP_INPUT ≈ 43.668), and `lmsr_buy_cost` returns
exactly 10000 / 100 = 100 — a fixed static fraction of the amount. -/
theorem C1_static_fraction_counterexample :
    (chkAddI64 (44000000 : Int) (u64AsI64 10000)).map
      (fun v => (v, (44000000 : Int))) = some (44010000, 44000000) ∧
    lmsrCost 1000000 44000000 44000000 = .ok 44693147 ∧
    lmsrCost 1000000 44010000 44000000 = .ok 44655393 ∧
    (44655393 : Nat) < 44693147 ∧
    lmsrMarginalPrice 1000000 44000000 44000000 = .error .ValueTooLarge ∧
    lmsrBuyCost 1000000 44000000 44000000 10000 true = .ok 100 ∧
    (100 : Nat) = 10000 / MIN_COST_DIVISOR := by
  refine ⟨by decide, by rfl, by rfl, by decide, by rfl, by rfl, by rfl⟩

end PM

namespace PM

/-- C6 (amended): with insurance enabled and a loss (after_penalty <
invested_share), the code pays compensation only when loss_bps STRICTLY
exceeds insurance_loss_threshold_bps — not the claimed `≥` — where
loss_bps = loss·10000/invested_share; the compensation is
min(loss·insurance_max_compensation_bps/10000 truncated to u64, global pool
balance, per-market contribution), and the counter update decrements the
global balance and the market contribution by the same amount in the same
instruction. -/
theorem C6_insurance_threshold_amended
    (th maxB g c after inv : Nat)
    (hlt : after < inv)
    (hinvU : inv < U64MOD)
    (hmaxB : maxB < 65536)
    (g2 c2 comp : Nat)
    (hg : comp ≤ g2) (hc : comp ≤ c2) :
    insuranceCompCalc true th maxB g c after inv =
      .ok ((if th < (inv - after) * BASIS_POINTS_DIVISOR / inv then
            min (min (asU64 ((inv - after) * maxB / BASIS_POINTS_DIVISOR)) g) c
          else 0),
          (inv - after) * BASIS_POINTS_DIVISOR / inv) ∧
    insuranceCounterUpdate g2 c2 comp = .ok (g2 - comp, c2 - comp) := by
  have hpos : 0 < inv := by omega
  have hlossU : inv - after < U64MOD := by omega
  have h1 : chkSub inv after = some (inv - after) := by
    simp [chkSub]; omega
  have h2 : chkMul128 (inv - after) BASIS_POINTS_DIVISOR =
      some ((inv - after) * BASIS_POINTS_DIVISOR) := by
    simp only [chkMul128, BASIS_POINTS_DIVISOR, U128MOD, U64MOD] at *
    rw [if_pos]; omega
  have h3 : chkDiv ((inv - after) * BASIS_POINTS_DIVISOR) inv =
      some ((inv - after) * BASIS_POINTS_DIVISOR / inv) := by
    simp [chkDiv]; omega
  have hbps_le : (inv - after) * BASIS_POINTS_DIVISOR / inv ≤
      BASIS_POINTS_DIVISOR := by
    have hmono : (inv - after) * BASIS_POINTS_DIVISOR ≤
        inv * BASIS_POINTS_DIVISOR :=
      Nat.mul_le_mul_right _ (Nat.sub_le _ _)
    have hdiv := Nat.div_le_div_right (c := inv) hmono
    rwa [Nat.mul_div_cancel_left _ hpos] at hdiv
  have h4 : asU16 ((inv - after) * BASIS_POINTS_DIVISOR / inv) =
      (inv - after) * BASIS_POINTS_DIVISOR / inv := by
    unfold asU16
    have h65 : (inv - after) * BASIS_POINTS_DIVISOR / inv < 65536 :=
      lt_of_le_of_lt hbps_le (by norm_num [BASIS_POINTS_DIVISOR])
    exact Nat.mod_eq_of_lt h65
  have h5 : chkMul128 (inv - after) maxB = some ((inv - after) * maxB) := by
    simp only [chkMul128, U128MOD]
    rw [if_pos]
    calc (inv - after) * maxB < 2 ^ 64 * 2 ^ 16 := by
          apply Nat.mul_lt_mul''
          · unfold U64MOD at hlossU; omega
          · omega
      _ ≤ 2 ^ 128 := by norm_num
  have h6 : chkDiv ((inv - after) * maxB) BASIS_POINTS_DIVISOR =
      some ((inv - after) * maxB / BASIS_POINTS_DIVISOR) := by
    simp [chkDiv, BASIS_POINTS_DIVISOR]
  constructor
  · simp only [insuranceCompCalc, h1, h2, h3, h4, h5, h6, okOr, ok_bind,
      pure_eq_ok, hlt, hpos, true_and, and_true, if_true]
    split
    · split
      · rfl
      · rename_i h0
        simp only [Except.ok.injEq, Prod.mk.injEq]
        refine ⟨by omega, by simp⟩
    · rfl
  · unfold insuranceCounterUpdate
    split
    · have hgs : chkSub g2 comp = some (g2 - comp) := by simp [chkSub, hg]
      have hcs : chkSub c2 comp = some (c2 - comp) := by simp [chkSub, hc]
      simp [hgs, hcs, okOr]
    · rename_i hcomp0
      simp only [pure_eq_ok, Except.ok.injEq, Prod.mk.injEq]
      omega

/-- C6 witness: a 20% loss (invested 10000, after-penalty 8000) over a
1000 bps threshold pays min(2000·5000/10000, pool, contribution) = 1000; the
counter update decrements 500 and 700 by the same 300. -/
theorem C6_insurance_threshold_amended_witness :
    insuranceCompCalc true 1000 5000 1000000 1000000 8000 10000 =
      .ok ((if 1000 < (10000 - 8000) * BASIS_POINTS_DIVISOR / 10000 then
            min (min (asU64 ((10000 - 8000) * 5000 / BASIS_POINTS_DIVISOR))
              1000000) 1000000
          else 0),
          (10000 - 8000) * BASIS_POINTS_DIVISOR / 10000) ∧
    insuranceCounterUpdate 500 700 300 = .ok (500 - 300, 700 - 300) :=
  C6_insurance_threshold_amended 1000 5000 1000000 1000000 8000 10000
    (by decide) (by decide) (by decide) 500 700 300 (by decide) (by decide)

/-- C6 counterexample (to the original `≥` rule): at loss_bps exactly equal
to the threshold (invested 10000, after-penalty 9000, threshold 1000 bps,
max compensation 5000 bps, both pools at 10^6), the spec formula pays 500
while the code pays 0. -/
theorem C6_insurance_threshold_counterexample :
    insuranceCompCalc true 1000 5000 1000000 1000000 9000 10000 =
      .ok (0, 1000) ∧
    insuranceCompensationSpec 1000 5000 1000000 1000000 9000 10000 = 500 := by
  refine ⟨by rfl, by rfl⟩

end PM

namespace PM

set_option maxHeartbeats 2000000 in
/-- C3: on a completed market, claim_rewards applies no ContractPaused gate —
its result is literally independent of the global is_paused flag — burns the
caller's entire YES and NO balances, pays
yes_balance·resolution_yes_ratio/10000 + no_balance·resolution_no_ratio/10000,
drawing first from total_collateral_locked and only the shortfall from
pool_collateral_reserve, and a zero-payout claim (only losing-side tokens)
succeeds, burning the tokens and transferring 0. -/
theorem C3_claim_rewards_paused_payout
    (cfg : Config) (st : SetOpState) (p : Bool) (P : Nat)
    (hre : st.market.claimInProgress = false)
    (hcomp : st.market.isCompleted = true)
    (hbal : 0 < st.userYes ∨ 0 < st.userNo)
    (hy : st.userYes * st.market.resolutionYesRatio < U64MOD)
    (hn : st.userNo * st.market.resolutionNoRatio < U64MOD)
    (hP : P = st.userYes * st.market.resolutionYesRatio / BASIS_POINTS_DIVISOR +
      st.userNo * st.market.resolutionNoRatio / BASIS_POINTS_DIVISOR)
    (hadd : P < U64MOD)
    (hvault : 0 < P → P ≤ st.vaultUsdc ∧
      cfg.usdcVaultMinBalance ≤ st.vaultUsdc - P)
    (hpool : P - min P st.market.totalCollateralLocked ≤
      st.market.poolCollateralReserve)
    (htr : st.userUsdc + P < U64MOD) :
    claimRewards cfg USDC_DECIMALS st = .ok
      ({ market := { st.market with
           totalCollateralLocked := st.market.totalCollateralLocked -
             min P st.market.totalCollateralLocked
           poolCollateralReserve := st.market.poolCollateralReserve -
             (P - min P st.market.totalCollateralLocked)
           totalYesMinted := st.market.totalYesMinted -
             min st.userYes st.market.totalYesMinted
           totalNoMinted := st.market.totalNoMinted -
             min st.userNo st.market.totalNoMinted
           tokenYesTotalSupply := st.market.tokenYesTotalSupply -
             min st.userYes st.market.tokenYesTotalSupply
           tokenNoTotalSupply := st.market.tokenNoTotalSupply -
             min st.userNo st.market.tokenNoTotalSupply }
         vaultUsdc := st.vaultUsdc - P
         userUsdc := st.userUsdc + P
         userYes := 0
         userNo := 0 }, P) ∧
    claimRewards { cfg with isPaused := p } USDC_DECIMALS st =
      claimRewards cfg USDC_DECIMALS st := by
  refine ⟨?_, rfl⟩
  have h1 : chkMul64 st.userYes st.market.resolutionYesRatio =
      some (st.userYes * st.market.resolutionYesRatio) := by
    simp [chkMul64, hy]
  have h2 : chkDiv (st.userYes * st.market.resolutionYesRatio)
      BASIS_POINTS_DIVISOR =
      some (st.userYes * st.market.resolutionYesRatio /
        BASIS_POINTS_DIVISOR) := by
    simp [chkDiv, BASIS_POINTS_DIVISOR]
  have h3 : chkMul64 st.userNo st.market.resolutionNoRatio =
      some (st.userNo * st.market.resolutionNoRatio) := by
    simp [chkMul64, hn]
  have h4 : chkDiv (st.userNo * st.market.resolutionNoRatio)
      BASIS_POINTS_DIVISOR =
      some (st.userNo * st.market.resolutionNoRatio /
        BASIS_POINTS_DIVISOR) := by
    simp [chkDiv, BASIS_POINTS_DIVISOR]
  have h5 : chkAdd64 (st.userYes * st.market.resolutionYesRatio /
        BASIS_POINTS_DIVISOR)
      (st.userNo * st.market.resolutionNoRatio / BASIS_POINTS_DIVISOR) =
      some P := by
    subst hP
    simp only [chkAdd64]
    rw [if_pos hadd]
  have h7 : ∀ a b : Nat, chkSub a (min a b) = some (a - min a b) := by
    intro a b
    simp [chkSub, min_le_left]
  have h6 : ∀ a b : Nat, chkSub a (min b a) = some (a - min b a) := by
    intro a b
    simp [chkSub, min_le_right]
  have h10 : chkSub st.market.poolCollateralReserve
      (P - min P st.market.totalCollateralLocked) =
      some (st.market.poolCollateralReserve -
        (P - min P st.market.totalCollateralLocked)) := by
    simp [chkSub, hpool]
  rcases Nat.eq_zero_or_pos P with hP0 | hP0
  · simp only [claimRewards, requireThat, okOr, h1, h2, h3, h4, h5, h6, h7,
      h10, hre, hcomp, hbal, hP0, ok_bind, pure_eq_ok, error_bind,
      throw_eq_error, Bool.not_false, if_true, decide_eq_true_eq,
      USDC_DECIMALS, splBurn, splTransfer, Nat.sub_self, Nat.zero_min,
      Nat.min_zero, Nat.zero_sub, Nat.sub_zero]
    repeat' split
    all_goals
      try simp only [ok_bind, error_bind, pure_eq_ok, Except.ok.injEq,
        Prod.mk.injEq, SetOpState.mk.injEq, Market.mk.injEq, eq_self_iff_true,
        and_true, true_and]
    all_goals first | rfl | omega
  · obtain ⟨hv1, hv2⟩ := hvault hP0
    have h11 : chkSub st.vaultUsdc P = some (st.vaultUsdc - P) := by
      simp [chkSub, hv1]
    have h12 : chkAdd64 st.userUsdc P = some (st.userUsdc + P) := by
      simp only [chkAdd64]
      rw [if_pos htr]
    simp only [claimRewards, requireThat, okOr, h1, h2, h3, h4, h5, h6, h7,
      h10, h11, h12, hre, hcomp, hbal, hv1, hv2, hP0, ok_bind, pure_eq_ok,
      error_bind, throw_eq_error, Bool.not_false, if_true, decide_eq_true_eq,
      USDC_DECIMALS, splBurn, splTransfer, Nat.sub_self]
    repeat' split
    all_goals
      try simp only [ok_bind, error_bind, pure_eq_ok, Except.ok.injEq,
        Prod.mk.injEq, SetOpState.mk.injEq, Market.mk.injEq, eq_self_iff_true,
        and_true, true_and]
    all_goals first | rfl | omega

end PM

namespace PM

/-- C3 witness: on the resolved sample market (YES pays 10000 bps), a holder
of 3 YES + 2 NO claims exactly 3 and both balances burn to 0; a holder of
only 2 losing NO tokens claims successfully with payout 0; and the result is
unchanged under a paused global config. -/
theorem C3_claim_rewards_paused_payout_witness :
    (∃ r, claimRewards baseConfig USDC_DECIMALS c3StateA = .ok r ∧
      r.2 = 3 ∧ r.1.userYes = 0 ∧ r.1.userNo = 0) ∧
    (∃ r, claimRewards baseConfig USDC_DECIMALS c3StateB = .ok r ∧
      r.2 = 0 ∧ r.1.userNo = 0) ∧
    claimRewards { baseConfig with isPaused := true } USDC_DECIMALS c3StateA =
      claimRewards baseConfig USDC_DECIMALS c3StateA := by
  obtain ⟨hA, hpauseA⟩ := C3_claim_rewards_paused_payout baseConfig c3StateA
    true 3 (by decide) (by decide) (by decide) (by decide) (by decide)
    (by decide) (by decide) (by decide) (by decide) (by decide)
  obtain ⟨hB, -⟩ := C3_claim_rewards_paused_payout baseConfig c3StateB
    false 0 (by decide) (by decide) (by decide) (by decide) (by decide)
    (by decide) (by decide) (by decide) (by decide) (by decide)
  exact ⟨⟨_, hA, rfl, rfl, rfl⟩, ⟨_, hB, rfl, rfl⟩, hpauseA⟩

end PM

namespace PM

/-!
### Frame and rejection lemmas for the resolution invariant

The instructions that can run on a completed market (claim_rewards,
withdraw_liquidity, claim_lp_fees) never write the resolution fields or
clear is_completed; every other instruction rejects a completed market
outright.
-/

@[simp] theorem requireThat_false (e : PmError) :
    requireThat false e = .error e := rfl

set_option maxHeartbeats 1000000 in
theorem claimRewards_resolution_frame {cfg : Config} {d : Nat}
    {st : SetOpState} {r : SetOpState × Nat}
    (h : claimRewards cfg d st = .ok r) :
    r.1.market.resolutionYesRatio = st.market.resolutionYesRatio ∧
    r.1.market.resolutionNoRatio = st.market.resolutionNoRatio ∧
    r.1.market.isCompleted = st.market.isCompleted := by
  unfold claimRewards at h
  repeat'
    first
    | (obtain ⟨_, -, h⟩ := bind_ok_iff.mp h)
    | (split at h)
  all_goals
    first
    | (simp only [pure_eq_ok, Except.ok.injEq] at h
       subst h
       exact ⟨rfl, rfl, rfl⟩)
    | (simp only [throw_eq_error, error_bind] at h)

theorem internalSellYes_resolution_frame {m : Market} {a : Nat}
    {r : Market × Nat} (h : internalSellYes m a = .ok r) :
    r.1.resolutionYesRatio = m.resolutionYesRatio ∧
    r.1.resolutionNoRatio = m.resolutionNoRatio ∧
    r.1.isCompleted = m.isCompleted := by
  unfold internalSellYes at h
  repeat'
    first
    | (obtain ⟨_, -, h⟩ := bind_ok_iff.mp h)
    | (split at h)
  all_goals
    first
    | (simp only [pure_eq_ok, Except.ok.injEq] at h
       subst h
       exact ⟨rfl, rfl, rfl⟩)
    | (simp only [throw_eq_error, error_bind] at h)

theorem internalSellNo_resolution_frame {m : Market} {a : Nat}
    {r : Market × Nat} (h : internalSellNo m a = .ok r) :
    r.1.resolutionYesRatio = m.resolutionYesRatio ∧
    r.1.resolutionNoRatio = m.resolutionNoRatio ∧
    r.1.isCompleted = m.isCompleted := by
  unfold internalSellNo at h
  repeat'
    first
    | (obtain ⟨_, -, h⟩ := bind_ok_iff.mp h)
    | (split at h)
  all_goals
    first
    | (simp only [pure_eq_ok, Except.ok.injEq] at h
       subst h
       exact ⟨rfl, rfl, rfl⟩)
    | (simp only [throw_eq_error, error_bind] at h)

theorem withdrawRedeemPhase_resolution_frame {st : LiqState} {ys ns : Nat}
    {r : Market × Nat × Nat × Nat} (h : withdrawRedeemPhase st ys ns = .ok r) :
    r.1.resolutionYesRatio = st.market.resolutionYesRatio ∧
    r.1.resolutionNoRatio = st.market.resolutionNoRatio ∧
    r.1.isCompleted = st.market.isCompleted := by
  unfold withdrawRedeemPhase at h
  dsimp only at h
  split at h
  · obtain ⟨gy, -, h⟩ := bind_ok_iff.mp h
    obtain ⟨gn, -, h⟩ := bind_ok_iff.mp h
    obtain ⟨y, -, h⟩ := bind_ok_iff.mp h
    split at h
    · obtain ⟨rY, hY, h⟩ := bind_ok_iff.mp h
      obtain ⟨_, -, h⟩ := bind_ok_iff.mp h
      simp only [pure_eq_ok, Except.ok.injEq] at h
      subst h
      exact internalSellYes_resolution_frame hY
    · split at h
      · obtain ⟨rN, hN, h⟩ := bind_ok_iff.mp h
        obtain ⟨_, -, h⟩ := bind_ok_iff.mp h
        simp only [pure_eq_ok, Except.ok.injEq] at h
        subst h
        exact internalSellNo_resolution_frame hN
      · simp only [pure_eq_ok, Except.ok.injEq] at h
        subst h
        exact ⟨rfl, rfl, rfl⟩
  · obtain ⟨y, -, h⟩ := bind_ok_iff.mp h
    split at h
    · obtain ⟨rY, hY, h⟩ := bind_ok_iff.mp h
      obtain ⟨_, -, h⟩ := bind_ok_iff.mp h
      simp only [pure_eq_ok, Except.ok.injEq] at h
      subst h
      exact internalSellYes_resolution_frame hY
    · split at h
      · obtain ⟨rN, hN, h⟩ := bind_ok_iff.mp h
        obtain ⟨_, -, h⟩ := bind_ok_iff.mp h
        simp only [pure_eq_ok, Except.ok.injEq] at h
        subst h
        exact internalSellNo_resolution_frame hN
      · simp only [pure_eq_ok, Except.ok.injEq] at h
        subst h
        exact ⟨rfl, rfl, rfl⟩

theorem withdrawLedgerUpdate_resolution_frame {m1 : Market}
    {ps ys ns us ls : Nat} {m2 : Market}
    (h : withdrawLedgerUpdate m1 ps ys ns us ls = .ok m2) :
    m2.resolutionYesRatio = m1.resolutionYesRatio ∧
    m2.resolutionNoRatio = m1.resolutionNoRatio ∧
    m2.isCompleted = m1.isCompleted := by
  unfold withdrawLedgerUpdate at h
  repeat obtain ⟨_, -, h⟩ := bind_ok_iff.mp h
  simp only [pure_eq_ok, Except.ok.injEq] at h
  subst h
  exact ⟨rfl, rfl, rfl⟩

set_option maxHeartbeats 1000000 in
theorem withdrawLiquidity_resolution_frame {wp : WithdrawParams} {t : Int}
    {st : LiqState} {l mo : Nat} {r : LiqState × Nat × Nat × Nat}
    (h : withdrawLiquidity wp t st l mo = .ok r) :
    r.1.market.resolutionYesRatio = st.market.resolutionYesRatio ∧
    r.1.market.resolutionNoRatio = st.market.resolutionNoRatio ∧
    r.1.market.isCompleted = st.market.isCompleted := by
  unfold withdrawLiquidity at h
  obtain ⟨gates, -, h⟩ := bind_ok_iff.mp h
  obtain ⟨phase, hphase, h⟩ := bind_ok_iff.mp h
  obtain ⟨_, -, h⟩ := bind_ok_iff.mp h
  obtain ⟨_, -, h⟩ := bind_ok_iff.mp h
  obtain ⟨_, -, h⟩ := bind_ok_iff.mp h
  obtain ⟨_, -, h⟩ := bind_ok_iff.mp h
  obtain ⟨_, -, h⟩ := bind_ok_iff.mp h
  obtain ⟨_, -, h⟩ := bind_ok_iff.mp h
  obtain ⟨_, -, h⟩ := bind_ok_iff.mp h
  obtain ⟨_, -, h⟩ := bind_ok_iff.mp h
  obtain ⟨_, -, h⟩ := bind_ok_iff.mp h
  obtain ⟨m2, hm2, h⟩ := bind_ok_iff.mp h
  obtain ⟨e1, e2, e3⟩ := withdrawRedeemPhase_resolution_frame hphase
  obtain ⟨f1, f2, f3⟩ := withdrawLedgerUpdate_resolution_frame hm2
  by_cases hdt : (86400 : Int) ≤ t - m2.withdrawTrackingStart
  case pos =>
    simp only [if_pos hdt] at h
    repeat'
      first
      | (obtain ⟨_, -, h⟩ := bind_ok_iff.mp h)
      | (split at h)
    all_goals
      simp only [pure_eq_ok, Except.ok.injEq] at h
    all_goals
      subst h
    all_goals
      refine ⟨?_, ?_, ?_⟩ <;> (repeat split) <;>
        first
        | exact f1.trans e1
        | exact f2.trans e2
        | exact f3.trans e3
  case neg =>
    simp only [if_neg hdt] at h
    repeat'
      first
      | (obtain ⟨_, -, h⟩ := bind_ok_iff.mp h)
      | (split at h)
    all_goals
      simp only [pure_eq_ok, Except.ok.injEq] at h
    all_goals
      subst h
    all_goals
      refine ⟨?_, ?_, ?_⟩ <;> (repeat split) <;>
        first
        | exact f1.trans e1
        | exact f2.trans e2
        | exact f3.trans e3

theorem claimLpFees_resolution_frame {cfg : Config} {d : Nat} {m : Market}
    {lp : LpPosition} {v lu : Nat} {r : Market × LpPosition × Nat × Nat × Nat}
    (h : claimLpFees cfg d m lp v lu = .ok r) :
    r.1.resolutionYesRatio = m.resolutionYesRatio ∧
    r.1.resolutionNoRatio = m.resolutionNoRatio ∧
    r.1.isCompleted = m.isCompleted := by
  unfold claimLpFees at h
  obtain ⟨_, -, h⟩ := bind_ok_iff.mp h
  obtain ⟨_, -, h⟩ := bind_ok_iff.mp h
  obtain ⟨_, -, h⟩ := bind_ok_iff.mp h
  obtain ⟨_, -, h⟩ := bind_ok_iff.mp h
  obtain ⟨_, -, h⟩ := bind_ok_iff.mp h
  obtain ⟨_, -, h⟩ := bind_ok_iff.mp h
  obtain ⟨claimable, -, h⟩ := bind_ok_iff.mp h
  obtain ⟨_, -, h⟩ := bind_ok_iff.mp h
  by_cases hz : claimable = 0
  case pos =>
    simp only [if_pos hz, pure_eq_ok, Except.ok.injEq] at h
    subst h
    exact ⟨rfl, rfl, rfl⟩
  case neg =>
    simp only [if_neg hz] at h
    repeat' obtain ⟨_, -, h⟩ := bind_ok_iff.mp h
    simp only [pure_eq_ok, Except.ok.injEq] at h
    subst h
    exact ⟨rfl, rfl, rfl⟩

theorem mintCompleteSet_state_frame {cfg : Config} {d : Nat} {st : SetOpState}
    {a : Nat} {st' : SetOpState} (h : mintCompleteSet cfg d st a = .ok st') :
    st'.market.resolutionYesRatio = st.market.resolutionYesRatio ∧
    st'.market.resolutionNoRatio = st.market.resolutionNoRatio ∧
    st'.market.isCompleted = st.market.isCompleted := by
  unfold mintCompleteSet at h
  repeat' obtain ⟨_, -, h⟩ := bind_ok_iff.mp h
  simp only [pure_eq_ok, Except.ok.injEq] at h
  subst h
  exact ⟨rfl, rfl, rfl⟩

theorem redeemCompleteSet_state_frame {cfg : Config} {d : Nat} {st : SetOpState}
    {a : Nat} {st' : SetOpState} (h : redeemCompleteSet cfg d st a = .ok st') :
    st'.market.resolutionYesRatio = st.market.resolutionYesRatio ∧
    st'.market.resolutionNoRatio = st.market.resolutionNoRatio ∧
    st'.market.isCompleted = st.market.isCompleted := by
  unfold redeemCompleteSet at h
  repeat' obtain ⟨_, -, h⟩ := bind_ok_iff.mp h
  simp only [pure_eq_ok, Except.ok.injEq] at h
  subst h
  exact ⟨rfl, rfl, rfl⟩

set_option maxHeartbeats 1000000 in
theorem addLiquidity_state_frame {ml : Nat} {t : Int} {st : LiqState}
    {u : Nat} {r : LiqState × Nat} (h : addLiquidity ml t st u = .ok r) :
    r.1.market.resolutionYesRatio = st.market.resolutionYesRatio ∧
    r.1.market.resolutionNoRatio = st.market.resolutionNoRatio ∧
    r.1.market.isCompleted = st.market.isCompleted := by
  unfold addLiquidity at h
  repeat'
    first
    | (obtain ⟨_, -, h⟩ := bind_ok_iff.mp h)
    | (split at h)
  all_goals
    simp only [pure_eq_ok, Except.ok.injEq] at h
  all_goals
    subst h
  all_goals
    exact ⟨rfl, rfl, rfl⟩

set_option maxHeartbeats 1000000 in
theorem swapBuyBranch_state_frame {eb : Nat} {st : SwapState} {am tt mra : Nat}
    {r : SwapState × SwapResult}
    (h : swapBuyBranch eb st am tt mra = .ok r) :
    r.1.market.resolutionYesRatio = st.market.resolutionYesRatio ∧
    r.1.market.resolutionNoRatio = st.market.resolutionNoRatio ∧
    r.1.market.isCompleted = st.market.isCompleted := by
  unfold swapBuyBranch at h
  repeat'
    first
    | (obtain ⟨_, -, h⟩ := bind_ok_iff.mp h)
    | (split at h)
  all_goals
    simp only [pure_eq_ok, Except.ok.injEq] at h
  all_goals
    subst h
  all_goals
    exact ⟨rfl, rfl, rfl⟩

set_option maxHeartbeats 2000000 in
theorem swapSellBranch_state_frame {eb : Nat} {st : SwapState} {am tt mra : Nat}
    {r : SwapState × SwapResult}
    (h : swapSellBranch eb st am tt mra = .ok r) :
    r.1.market.resolutionYesRatio = st.market.resolutionYesRatio ∧
    r.1.market.resolutionNoRatio = st.market.resolutionNoRatio ∧
    r.1.market.isCompleted = st.market.isCompleted := by
  unfold swapSellBranch at h
  repeat'
    first
    | (obtain ⟨_, -, h⟩ := bind_ok_iff.mp h)
    | (split at h)
  all_goals
    simp only [pure_eq_ok, Except.ok.injEq] at h
  all_goals
    subst h
  all_goals
    refine ⟨?_, ?_, ?_⟩ <;> (repeat split) <;> rfl

set_option maxHeartbeats 1000000 in
theorem marketSwap_state_frame {mbps slot eb : Nat} {st : SwapState}
    {am dir tt mra : Nat} {r : SwapState × SwapResult}
    (h : marketSwap mbps slot eb st am dir tt mra = .ok r) :
    r.1.market.resolutionYesRatio = st.market.resolutionYesRatio ∧
    r.1.market.resolutionNoRatio = st.market.resolutionNoRatio ∧
    r.1.market.isCompleted = st.market.isCompleted := by
  unfold marketSwap at h
  obtain ⟨_, -, h⟩ := bind_ok_iff.mp h
  obtain ⟨_, -, h⟩ := bind_ok_iff.mp h
  obtain ⟨_, -, h⟩ := bind_ok_iff.mp h
  obtain ⟨_, -, h⟩ := bind_ok_iff.mp h
  obtain ⟨_, -, h⟩ := bind_ok_iff.mp h
  cases hss : st.market.startSlot
  all_goals simp only [hss, ok_bind] at h
  all_goals
    try obtain ⟨_, -, h⟩ := bind_ok_iff.mp h
  all_goals cases hes : st.market.endingSlot
  all_goals simp only [hes, ok_bind] at h
  all_goals
    try obtain ⟨_, -, h⟩ := bind_ok_iff.mp h
  all_goals
    obtain ⟨_, -, h⟩ := bind_ok_iff.mp h
  all_goals
    obtain ⟨_, -, h⟩ := bind_ok_iff.mp h
  all_goals
    obtain ⟨_, -, h⟩ := bind_ok_iff.mp h
  all_goals
    by_cases hd : dir = 0
  all_goals
    first
    | (simp only [if_pos hd] at h
       exact swapBuyBranch_state_frame h)
    | (simp only [if_neg hd] at h
       exact swapSellBranch_state_frame h)

set_option maxHeartbeats 1000000 in
theorem swapIx_state_frame {mbps slot : Nat} {ts dl : Int} {eb d : Nat}
    {st : SwapState} {am dir tt mra : Nat} {r : SwapState × SwapResult}
    (h : swapIx mbps slot ts dl eb d st am dir tt mra = .ok r) :
    r.1.market.resolutionYesRatio = st.market.resolutionYesRatio ∧
    r.1.market.resolutionNoRatio = st.market.resolutionNoRatio ∧
    r.1.market.isCompleted = st.market.isCompleted := by
  unfold swapIx at h
  obtain ⟨_, -, h⟩ := bind_ok_iff.mp h
  obtain ⟨_, -, h⟩ := bind_ok_iff.mp h
  obtain ⟨_, -, h⟩ := bind_ok_iff.mp h
  by_cases hdl : (0 : Int) < dl
  all_goals
    first
    | rw [if_pos hdl] at h
    | rw [if_neg hdl] at h
  all_goals
    try obtain ⟨_, -, h⟩ := bind_ok_iff.mp h
  all_goals cases hes : st.market.endingSlot
  all_goals simp only [hes, ok_bind] at h
  all_goals
    try obtain ⟨_, -, h⟩ := bind_ok_iff.mp h
  all_goals
    obtain ⟨_, -, h⟩ := bind_ok_iff.mp h
  all_goals
    obtain ⟨_, -, h⟩ := bind_ok_iff.mp h
  all_goals
    exact marketSwap_state_frame h

set_option maxHeartbeats 1000000 in
theorem resolution_ratio_ok {auth : Bool} {slot gy gn : Nat} {m : Market}
    {ya na tt : Nat} {ic : Bool} {m' : Market}
    (h : resolutionHandler auth slot gy gn m ya na tt ic = .ok m') :
    tt ≤ 2 ∧
    (tt = 0 → ya = 0 ∧ na = BASIS_POINTS_DIVISOR) ∧
    (tt = 1 → ya = BASIS_POINTS_DIVISOR ∧ na = 0) ∧
    ya + na = BASIS_POINTS_DIVISOR ∧
    m'.resolutionYesRatio = ya ∧ m'.resolutionNoRatio = na ∧
    (ic = true → m'.isCompleted = true) := by
  unfold resolutionHandler at h
  obtain ⟨u1, h1, h⟩ := bind_ok_iff.mp h
  rw [requireThat_ok_iff, decide_eq_true_eq] at h1
  obtain ⟨_, -, h⟩ := bind_ok_iff.mp h
  obtain ⟨_, -, h⟩ := bind_ok_iff.mp h
  cases hes : m.endingSlot
  all_goals simp only [hes, ok_bind] at h
  all_goals try obtain ⟨_, -, h⟩ := bind_ok_iff.mp h
  all_goals obtain ⟨_, -, h⟩ := bind_ok_iff.mp h
  all_goals by_cases h0 : tt = 0
  all_goals
    first
    | rw [if_pos h0] at h
    | rw [if_neg h0] at h
  all_goals try by_cases hone : tt = 1
  all_goals
    first
    | rw [if_pos hone] at h
    | rw [if_neg hone] at h
    | skip
  all_goals obtain ⟨_, hr1, h⟩ := bind_ok_iff.mp h
  all_goals obtain ⟨_, hr2, h⟩ := bind_ok_iff.mp h
  all_goals simp only [requireThat_ok_iff, decide_eq_true_eq] at hr1 hr2
  all_goals repeat' obtain ⟨_, -, h⟩ := bind_ok_iff.mp h
  all_goals split at h
  all_goals repeat' obtain ⟨_, -, h⟩ := bind_ok_iff.mp h
  all_goals try split at h
  all_goals repeat' obtain ⟨_, -, h⟩ := bind_ok_iff.mp h
  all_goals try split at h
  all_goals repeat' obtain ⟨_, -, h⟩ := bind_ok_iff.mp h
  all_goals
    simp only [pure_eq_ok, Except.ok.injEq] at h
  all_goals
    subst h
  all_goals
    refine ⟨h1, fun ht => ⟨by omega, by omega⟩, fun ht => ⟨by omega, by omega⟩,
      by omega, rfl, rfl, fun hic => ?_⟩
  all_goals
    simp [hic]

theorem step_preserves_ratio_inv {m m' : Market} (s : Step m m')
    (hm : ResolutionRatioInv m) : ResolutionRatioInv m' := by
  cases s with
  | mint cfg d st a st' h =>
      obtain ⟨e1, e2, e3⟩ := mintCompleteSet_state_frame h
      intro hc
      rw [e1, e2]
      exact hm (e3 ▸ hc)
  | redeem cfg d st a st' h =>
      obtain ⟨e1, e2, e3⟩ := redeemCompleteSet_state_frame h
      intro hc
      rw [e1, e2]
      exact hm (e3 ▸ hc)
  | claimRw cfg d st r h =>
      obtain ⟨e1, e2, e3⟩ := claimRewards_resolution_frame h
      intro hc
      rw [e1, e2]
      exact hm (e3 ▸ hc)
  | swap mbps slot ts dl eb d st am dir tt mra r h =>
      obtain ⟨e1, e2, e3⟩ := swapIx_state_frame h
      intro hc
      rw [e1, e2]
      exact hm (e3 ▸ hc)
  | addLiq ml t st u r h =>
      obtain ⟨e1, e2, e3⟩ := addLiquidity_state_frame h
      intro hc
      rw [e1, e2]
      exact hm (e3 ▸ hc)
  | withdraw wp t st l mo r h =>
      obtain ⟨e1, e2, e3⟩ := withdrawLiquidity_resolution_frame h
      intro hc
      rw [e1, e2]
      exact hm (e3 ▸ hc)
  | claimFees cfg d mm lp v lu r h =>
      obtain ⟨e1, e2, e3⟩ := claimLpFees_resolution_frame h
      intro hc
      rw [e1, e2]
      exact hm (e3 ▸ hc)
  | resolve auth slot gy gn mm ya na tt ic m2 h =>
      obtain ⟨-, -, -, hsum, hy, hn, -⟩ := resolution_ratio_ok h
      intro hc
      rw [hy, hn]
      exact hsum

/-- C5: the resolution handler succeeds only under the winner mapping —
winner 0 forces (yes, no) = (0, 10000), winner 1 forces (10000, 0), winner 2
(draw) forces yes + no = 10000, and winner values above 2 are rejected (the
success implies tt ≤ 2) — so it always writes ratios summing to 10000 and
sets is_completed when asked to; and the sum-10000-once-completed invariant
is preserved by every reachable sequence of successful instructions. -/
theorem C5_resolution_ratio_invariant :
    (∀ (auth : Bool) (slot gy gn : Nat) (m : Market) (ya na tt : Nat)
        (ic : Bool) (m' : Market),
      resolutionHandler auth slot gy gn m ya na tt ic = .ok m' →
        tt ≤ 2 ∧
        (tt = 0 → ya = 0 ∧ na = BASIS_POINTS_DIVISOR) ∧
        (tt = 1 → ya = BASIS_POINTS_DIVISOR ∧ na = 0) ∧
        ya + na = BASIS_POINTS_DIVISOR ∧
        m'.resolutionYesRatio = ya ∧ m'.resolutionNoRatio = na ∧
        (ic = true → m'.isCompleted = true)) ∧
    (∀ m m' : Market, ResolutionRatioInv m →
      Relation.ReflTransGen Step m m' → ResolutionRatioInv m') := by
  constructor
  · intro auth slot gy gn m ya na tt ic m' h
    exact resolution_ratio_ok h
  · intro m m' hm hsteps
    induction hsteps with
    | refl => exact hm
    | tail _ s ih => exact step_preserves_ratio_inv s ih

theorem bind_error_iff {α β : Type} {x : Except PmError α}
    {f : α → Except PmError β} {e : PmError} :
    (x >>= f) = .error e ↔
    x = .error e ∨ ∃ a, x = .ok a ∧ f a = .error e := by
  cases x <;> simp

theorem requireThat_ne {c : Bool} {e e' : PmError} (hne : e ≠ e') :
    requireThat c e ≠ .error e' := by
  cases c <;> simp [requireThat]
  exact hne

theorem okOr_ne {α : Type} {o : Option α} {e e' : PmError} (hne : e ≠ e') :
    okOr o e ≠ .error e' := by
  cases o <;> simp [okOr]
  exact hne

theorem splTransfer_no_pause (a b c : Nat) :
    splTransfer a b c ≠ .error .ContractPaused := by
  intro h
  unfold splTransfer at h
  repeat'
    first
    | (rcases bind_error_iff.mp h with h | ⟨_, -, h⟩)
    | (split at h)
  all_goals
    first
    | exact requireThat_ne (by decide) h
    | exact okOr_ne (by decide) h
    | simp at h

theorem splMintTo_no_pause (a b : Nat) :
    splMintTo a b ≠ .error .ContractPaused := by
  intro h
  unfold splMintTo at h
  exact okOr_ne (by decide) h

theorem fpMul_no_pause (a b : FixedPoint) :
    fpMul a b ≠ .error .ContractPaused := by
  intro h
  unfold fpMul at h
  repeat'
    first
    | (rcases bind_error_iff.mp h with h | ⟨_, -, h⟩)
    | (split at h)
  all_goals
    first
    | exact requireThat_ne (by decide) h
    | exact okOr_ne (by decide) h
    | simp at h

theorem fpDiv_no_pause (a b : FixedPoint) :
    fpDiv a b ≠ .error .ContractPaused := by
  intro h
  unfold fpDiv at h
  repeat'
    first
    | (rcases bind_error_iff.mp h with h | ⟨_, -, h⟩)
    | (split at h)
    | (simp only [throw_eq_error, pure_eq_ok, ok_bind, error_bind] at h)
  all_goals
    first
    | exact requireThat_ne (by decide) h
    | exact okOr_ne (by decide) h
    | simp at h

theorem fpLn_no_pause (x : FixedPoint) :
    fpLn x ≠ .error .ContractPaused := by
  intro h
  unfold fpLn at h
  repeat'
    first
    | (rcases bind_error_iff.mp h with h | ⟨_, -, h⟩)
    | (split at h)
    | (simp only [throw_eq_error, pure_eq_ok, ok_bind, error_bind] at h)
  all_goals
    first
    | exact requireThat_ne (by decide) h
    | exact okOr_ne (by decide) h
    | exact fpMul_no_pause _ _ h
    | simp [lnTaylor] at h
    | simp at h

theorem fpExp_no_pause (x : FixedPoint) :
    fpExp x ≠ .error .ContractPaused := by
  intro h
  unfold fpExp at h
  repeat'
    first
    | (rcases bind_error_iff.mp h with h | ⟨_, -, h⟩)
    | (split at h)
    | (simp only [throw_eq_error, pure_eq_ok, ok_bind, error_bind] at h)
  all_goals
    first
    | exact requireThat_ne (by decide) h
    | exact okOr_ne (by decide) h
    | exact fpMul_no_pause _ _ h
    | simp [expTaylor] at h
    | simp at h

end PM

namespace PM

section

attribute [local irreducible] fpDiv fpExp

set_option maxHeartbeats 1000000 in
theorem lmsrMarginalPrice_no_pause (b : Nat) (qYes qNo : Int) :
    lmsrMarginalPrice b qYes qNo ≠ .error .ContractPaused := by
  intro h
  unfold lmsrMarginalPrice at h
  repeat'
    first
    | (rcases bind_error_iff.mp h with h | ⟨_, -, h⟩)
    | (split at h)
    | (simp only [throw_eq_error, pure_eq_ok, ok_bind, error_bind] at h)
  all_goals
    first
    | exact requireThat_ne (by decide) h
    | exact okOr_ne (by decide) h
    | exact fpDiv_no_pause _ _ h
    | exact fpExp_no_pause _ h
    | simp at h

end

section

attribute [local irreducible] fpDiv fpExp fpMul lmsrMarginalPrice splTransfer splMintTo

set_option maxHeartbeats 2000000 in
theorem addLiquidity_no_pause (ml : Nat) (t : Int) (st : LiqState) (u : Nat) :
    addLiquidity ml t st u ≠ .error .ContractPaused := by
  intro h
  unfold addLiquidity at h
  repeat'
    first
    | (rcases bind_error_iff.mp h with h | ⟨_, -, h⟩)
    | (split at h)
    | (simp only [throw_eq_error, pure_eq_ok, ok_bind, error_bind] at h)
  all_goals
    first
    | exact requireThat_ne (by decide) h
    | exact okOr_ne (by decide) h
    | exact splTransfer_no_pause _ _ _ h
    | exact splMintTo_no_pause _ _ h
    | exact lmsrMarginalPrice_no_pause _ _ _ h
    | exact fpMul_no_pause _ _ h
    | simp at h

end

set_option maxRecDepth 40000 in
theorem c10_paused_success :
    (∃ r, addLiquidity 1000 0 c10LiqState 10000 = .ok r) ∧
    c10LiqState.config.isPaused = true := ⟨⟨_, rfl⟩, rfl⟩

theorem swapIx_pause_rejects {mbps slot : Nat} {ts dl : Int} {eb d : Nat}
    {st : SwapState} {am dir tt mra : Nat}
    (hd : d = USDC_DECIMALS) (hp : st.config.isPaused = true) :
    swapIx mbps slot ts dl eb d st am dir tt mra = .error .ContractPaused := by
  unfold swapIx
  simp [hd, hp, requireThat]

theorem mint_pause_rejects {cfg : Config} {d : Nat} {st : SetOpState} {a : Nat}
    (hd : d = USDC_DECIMALS) (hp : cfg.isPaused = true) :
    mintCompleteSet cfg d st a = .error .ContractPaused := by
  unfold mintCompleteSet
  simp [hd, hp, requireThat]

theorem redeem_pause_rejects {cfg : Config} {d : Nat} {st : SetOpState}
    {a : Nat} (hd : d = USDC_DECIMALS) (ha : 0 < a)
    (hc : st.market.isCompleted = false) (hp : cfg.isPaused = true) :
    redeemCompleteSet cfg d st a = .error .ContractPaused := by
  unfold redeemCompleteSet
  simp [hd, ha, hc, hp, requireThat]

theorem withdraw_pause_rejects {wp : WithdrawParams} {t : Int} {st : LiqState}
    {l mo : Nat} (hw : st.market.withdrawInProgress = false)
    (hm : st.market.marketPaused = false) (hp : st.config.isPaused = true) :
    withdrawLiquidity wp t st l mo = .error .ContractPaused := by
  unfold withdrawLiquidity withdrawGates
  simp [hw, hm, hp, requireThat]

theorem claimLpFees_pause_rejects {cfg : Config} {d : Nat} {m : Market}
    {lp : LpPosition} {v lu : Nat} (hr : m.claimInProgress = false)
    (hd : d = USDC_DECIMALS) (hp : cfg.isPaused = true) :
    claimLpFees cfg d m lp v lu = .error .ContractPaused := by
  unfold claimLpFees
  simp [hr, hd, hp, requireThat]

/-- C10: add_liquidity never consults the global is_paused flag — no input
makes it fail with ContractPaused, and it succeeds on a concrete paused
state — while swap, mint_complete_set, redeem_complete_set,
withdraw_liquidity and claim_lp_fees all reject a paused config with
ContractPaused once the gates checked before the pause gate pass. -/
theorem C10_add_liquidity_ignores_global_pause :
    (∀ (ml : Nat) (t : Int) (st : LiqState) (u : Nat),
      addLiquidity ml t st u ≠ .error .ContractPaused) ∧
    ((∃ r, addLiquidity 1000 0 c10LiqState 10000 = .ok r) ∧
      c10LiqState.config.isPaused = true) ∧
    (∀ (mbps slot : Nat) (ts dl : Int) (eb d : Nat) (st : SwapState)
        (am dir tt mra : Nat), d = USDC_DECIMALS →
      st.config.isPaused = true →
      swapIx mbps slot ts dl eb d st am dir tt mra = .error .ContractPaused) ∧
    (∀ (cfg : Config) (d : Nat) (st : SetOpState) (a : Nat),
      d = USDC_DECIMALS → cfg.isPaused = true →
      mintCompleteSet cfg d st a = .error .ContractPaused) ∧
    (∀ (cfg : Config) (d : Nat) (st : SetOpState) (a : Nat),
      d = USDC_DECIMALS → 0 < a → st.market.isCompleted = false →
      cfg.isPaused = true →
      redeemCompleteSet cfg d st a = .error .ContractPaused) ∧
    (∀ (wp : WithdrawParams) (t : Int) (st : LiqState) (l mo : Nat),
      st.market.withdrawInProgress = false → st.market.marketPaused = false →
      st.config.isPaused = true →
      withdrawLiquidity wp t st l mo = .error .ContractPaused) ∧
    (∀ (cfg : Config) (d : Nat) (m : Market) (lp : LpPosition) (v lu : Nat),
      m.claimInProgress = false → d = USDC_DECIMALS → cfg.isPaused = true →
      claimLpFees cfg d m lp v lu = .error .ContractPaused) := by
  refine ⟨addLiquidity_no_pause, c10_paused_success, ?_, ?_, ?_, ?_, ?_⟩
  · intro _ _ _ _ _ _ _ _ _ _ _ hd hp
    exact swapIx_pause_rejects hd hp
  · intro _ _ _ _ hd hp
    exact mint_pause_rejects hd hp
  · intro _ _ _ _ hd ha hc hp
    exact redeem_pause_rejects hd ha hc hp
  · intro _ _ _ _ _ hw hm hp
    exact withdraw_pause_rejects hw hm hp
  · intro _ _ _ _ _ _ hr hd hp
    exact claimLpFees_pause_rejects hr hd hp

end PM
